import Mathlib

/-!
Shallow embedding of the gdrive-webdav core (src/gdrive/gdrive.go and
src/gdrive/cache.go), the path-resolution and caching layer that exposes
Google Drive as a WebDAV filesystem.

Modelling conventions:
* Go strings are Lean `String` (a wrapper around `List Char` in this
  toolchain); bytes are `List Nat`.
* The Drive service (`fs.client`) is a structure of pure functions
  (`RemoteStore`); every remote call is also recorded in an operation
  trace so theorems can count queries and mutations.
* The shared `go-cache` instance is a function from keys to
  value/expiry pairs; time is a `Nat` number of seconds held in the
  state (`FSState.now`); `time.Minute` is 60, `5*time.Second` is 5.
  go-cache treats an entry as expired when `now > expiry`.
* Go's mutually recursive `getFile` / `getFile0` / `getFileID` are
  embedded with a fuel parameter bounding recursion depth; running out
  of fuel yields the artificial error `GoError.fuelOut`, which the
  source can never produce.  Theorems either supply enough fuel or
  exclude `fuelOut` explicitly.
* Go nil-pointer dereferences (`f.file.Id` on a nil `f` or `f.file`)
  are modelled by the artificial error `GoError.nilDeref`; the claim-C10
  theorem shows these branches are unreachable from well-formed caches.
-/

namespace Gdrive


/-- Error values used by the Go code: `os.ErrNotExist`, `os.ErrExist`,
`context.Canceled`, `io.EOF`, the stall-timeout error of the reader
wrapper, remote-store errors, plus the two modelling artifacts
described in the file header. -/
inductive GoError where
  | errNotExist
  | errExist
  | canceled
  | eof
  | timeout
  | nilDeref
  | fuelOut
  | storeErr (msg : String)
  deriving DecidableEq, Repr

/-- The fields of `drive.File` that the code reads:
Id, Name, MimeType, Trashed, Size, Parents, CreatedTime, ModifiedTime. -/
structure DriveFile where
  id : String
  name : String
  mimeType : String
  trashed : Bool
  size : Int
  parents : List String
  createdTime : String
  modifiedTime : String
  deriving DecidableEq, Repr

/-- gdrive.go: `mimeTypeFolder`. -/
def mimeTypeFolder : String := "application/vnd.google-apps.folder"

/-- gdrive.go: `fileAndPath` (pointer fields become `Option`). -/
structure fileAndPath where
  file : Option DriveFile
  path : String
  files : List DriveFile
  deriving DecidableEq, Repr

/-- cache.go: `fileLookupResult`. -/
structure fileLookupResult where
  fp : Option fileAndPath
  err : Option GoError
  deriving DecidableEq, Repr

/-- cache.go: `cacheKeyAbout`. -/
def cacheKeyAbout : String := "global:about"

/-- cache.go: `cacheKeyFile`. -/
def cacheKeyFile : String := "file:"

/-- cache.go: `cacheKeyDir` (the source gives it the same value "file:"
as `cacheKeyFile`). -/
def cacheKeyDir : String := "file:"

/-! ### Go standard library: strings.TrimRight and path.Dir / path.Base -/

/-- `strings.TrimRight(p, "/")` on the character list. -/
def trimTrailingSlashes (l : List Char) : List Char :=
  (l.reverse.dropWhile (fun c => c = '/')).reverse

/-- gdrive.go: `normalizePath` = `strings.TrimRight(p, "/")`. -/
def normalizePath (p : String) : String :=
  String.mk (trimTrailingSlashes p.data)

/-- Split a character list at every slash (slashes are dropped);
models the segment decomposition used by Go's `path.Clean`.
Always returns at least one (possibly empty) segment. -/
def splitSlash : List Char → List (List Char)
  | [] => [[]]
  | c :: rest =>
    let r := splitSlash rest
    if c = '/' then [] :: r
    else
      match r with
      | s :: ss => (c :: s) :: ss
      | [] => [[c]]

/-- Re-join segments with slashes (inverse of `splitSlash`). -/
def joinSlash : List (List Char) → List Char
  | [] => []
  | [s] => s
  | s :: ss => s ++ '/' :: joinSlash ss

/-- The element loop of Go's `path.Clean`: process segments left to
right keeping an output stack (in reverse order); empty and "."
segments are dropped, ".." pops a normal segment, is dropped at the
root of a rooted path, and is kept otherwise. -/
def cleanSegsAux (rooted : Bool) : List (List Char) → List (List Char) → List (List Char)
  | out, [] => out
  | out, s :: rest =>
    if s = [] ∨ s = ['.'] then cleanSegsAux rooted out rest
    else if s = ['.', '.'] then
      match out with
      | [] =>
        if rooted then cleanSegsAux rooted [] rest
        else cleanSegsAux rooted [['.', '.']] rest
      | o :: os =>
        if o = ['.', '.'] then cleanSegsAux rooted (['.', '.'] :: out) rest
        else cleanSegsAux rooted os rest
    else cleanSegsAux rooted (s :: out) rest

/-- Go's `path.Clean` on a character list. -/
def goCleanList (l : List Char) : List Char :=
  if l = [] then ['.']
  else
    let rooted : Bool := decide (l.head? = some '/')
    let out := (cleanSegsAux rooted [] (splitSlash l)).reverse
    let body := joinSlash out
    if rooted then '/' :: body
    else if body = [] then ['.'] else body

/-- Go's `path.Clean`. -/
def goClean (p : String) : String := String.mk (goCleanList p.data)

/-- The `dir` part of Go's `path.Split`: everything up to and including
the final slash (empty if there is no slash). -/
def dropLastSegment (l : List Char) : List Char :=
  (l.reverse.dropWhile (fun c => c ≠ '/')).reverse

/-- Go's `path.Dir`: `Clean` of the `Split` dir part. -/
def goPathDir (p : String) : String :=
  goClean (String.mk (dropLastSegment p.data))

/-- Go's `path.Base`. -/
def goPathBase (p : String) : String :=
  if p.data = [] then "."
  else
    let t := trimTrailingSlashes p.data
    if t = [] then "/"
    else String.mk (t.reverse.takeWhile (fun c => c ≠ '/')).reverse

/-! ### The remote store and the shared cache -/

/-- One remote Drive API call, as recorded in the trace. -/
inductive StoreOp where
  | get (id : String)
  | list (parentID : String) (name : String) (onlyFolder : Bool)
  | listChildren (parentID : String)
  | create (name : String) (parents : List String) (isFolder : Bool)
      (media : Option (List Nat))
  | delete (id : String)
  | download (id : String)
  deriving DecidableEq, Repr

/-- Remote mutations are object creations and deletions. -/
def StoreOp.isMut : StoreOp → Bool
  | StoreOp.create _ _ _ _ => true
  | StoreOp.delete _ => true
  | _ => false

/-- The Drive service (`fs.client`) as pure functions.  A download
result is a stream: a list of chunks, each preceded by the stall
time (in seconds) before its bytes arrive. -/
structure RemoteStore where
  filesGet : String → Except GoError DriveFile
  filesList : String → String → Bool → Except GoError (List DriveFile)
  filesListChildren : String → Except GoError (List DriveFile)
  filesCreate : DriveFile → Option (List Nat) → Except GoError DriveFile
  filesDelete : String → Option GoError
  filesDownload : String → Except GoError (List (Nat × List Nat))

/-- The go-cache map: key to value and absolute expiry time. -/
abbrev Cache := String → Option (fileLookupResult × Nat)

/-- go-cache `Get`: present and not expired (expired iff `now > expiry`). -/
def cacheGet (c : Cache) (now : Nat) (k : String) : Option fileLookupResult :=
  match c k with
  | none => none
  | some (v, expiry) => if expiry < now then none else some v

/-- go-cache `Set` with a TTL. -/
def cacheSet (c : Cache) (now ttl : Nat) (k : String) (v : fileLookupResult) : Cache :=
  fun q => if q = k then some (v, now + ttl) else c q

/-- go-cache `Delete`. -/
def cacheDelete (c : Cache) (k : String) : Cache :=
  fun q => if q = k then none else c q

/-- The empty cache a fresh `fileSystem` starts with. -/
def cache0 : Cache := fun _ => none

/-- The state threaded through the embedded functions: the shared
cache, the current time, the remote store, and the trace of remote
calls made so far. -/
structure FSState where
  cache : Cache
  now : Nat
  store : RemoteStore
  trace : List StoreOp

/-- Record one remote call in the trace. -/
def recOp (s : FSState) (op : StoreOp) : FSState :=
  { s with trace := s.trace ++ [op] }

/-- cache.go: `invalidatePath` deletes the single key `cacheKeyFile + p`. -/
def invalidatePath (s : FSState) (p : String) : FSState :=
  { s with cache := cacheDelete s.cache (cacheKeyFile ++ p) }

/-! ### Path resolution: getFile / getFile0 / getFileID -/

/-- gdrive.go: `ignoreFile` — trashed objects are invisible. -/
def ignoreFile (f : DriveFile) : Bool := f.trashed

/-- The `for _, file := range r.Files` loop of `getFile0`: return the
first file that is not ignored. -/
def firstNotIgnored : List DriveFile → Option DriveFile
  | [] => none
  | f :: rest => if ignoreFile f then firstNotIgnored rest else some f

/-- The root branch of gdrive.go `getFile0`: the empty (normalized)
path is served by `Files.Get("root")`, without touching the cache and
without resolving any parent. -/
def getRootFile (s : FSState) : (Option fileAndPath × Option GoError) × FSState :=
  let s1 := recOp s (StoreOp.get "root")
  match s1.store.filesGet "root" with
  | Except.error e => ((none, some e), s1)
  | Except.ok f => ((some { file := some f, path := "/", files := [] }, none), s1)

mutual

/-- cache.go: `getFile` — consult the cache under `cacheKeyFile + p`;
on a miss run `getFile0` and cache the result for `time.Minute`, but
only when the error is nil.  (Fuel is matched in the patterns so that
each equation is definitional; the cache-hit branch is identical in
both arms.) -/
def getFile : Nat → FSState → String → Bool → (Option fileAndPath × Option GoError) × FSState
  | 0, s, p, _onlyFolder =>
    match cacheGet s.cache s.now (cacheKeyFile ++ p) with
    | some result => ((result.fp, result.err), s)
    | none => ((none, some GoError.fuelOut), s)
  | fuel' + 1, s, p, onlyFolder =>
    match cacheGet s.cache s.now (cacheKeyFile ++ p) with
    | some result => ((result.fp, result.err), s)
    | none =>
      let r := getFile0 fuel' s p onlyFolder
      match r.1.2 with
      | none =>
        ((r.1.1, r.1.2),
          { r.2 with cache :=
              cacheSet r.2.cache r.2.now 60 (cacheKeyFile ++ p) ⟨r.1.1, r.1.2⟩ })
      | some _ => ((r.1.1, r.1.2), r.2)

/-- gdrive.go: `getFile0` — normalize; the empty (root) path is served
by `getRootFile`; otherwise resolve the parent as a folder, list the
parent's children matching the base name (folders only when
`onlyFolder`), skip trashed files and return the first remaining one;
no match is `os.ErrNotExist`. -/
def getFile0 : Nat → FSState → String → Bool → (Option fileAndPath × Option GoError) × FSState
  | 0, s, p, _onlyFolder =>
    if normalizePath p = "" then getRootFile s
    else ((none, some GoError.fuelOut), s)
  | fuel' + 1, s, p, onlyFolder =>
    let q := normalizePath p
    if q = "" then getRootFile s
    else
      let r := getFileID fuel' s (goPathDir q) true
      match r.1.2 with
      | some e => ((none, some e), r.2)
      | none =>
        let s2 := recOp r.2 (StoreOp.list r.1.1 (goPathBase q) onlyFolder)
        match s2.store.filesList r.1.1 (goPathBase q) onlyFolder with
        | Except.error e => ((none, some e), s2)
        | Except.ok files =>
          match firstNotIgnored files with
          | some file => ((some { file := some file, path := q, files := [] }, none), s2)
          | none => ((none, some GoError.errNotExist), s2)

/-- gdrive.go: `getFileID` — `getFile` then `f.file.Id` (a nil `f` or
`f.file` would be a Go nil dereference, modelled as `nilDeref`). -/
def getFileID : Nat → FSState → String → Bool → (String × Option GoError) × FSState
  | 0, s, _p, _onlyFolder => (("", some GoError.fuelOut), s)
  | fuel' + 1, s, p, onlyFolder =>
    let r := getFile fuel' s p onlyFolder
    match r.1.2 with
    | some e => (("", some e), r.2)
    | none =>
      match r.1.1 with
      | some fp =>
        match fp.file with
        | some df => ((df.id, none), r.2)
        | none => (("", some GoError.nilDeref), r.2)
      | none => (("", some GoError.nilDeref), r.2)

end


/-! ### File metadata -/

/-- gdrive.go: `fileInfo`.  `modTime` keeps the selected RFC3339
string (empty for the zero time); parsing is Go standard library
behaviour that no claim inspects. -/
structure fileInfo where
  name : String
  isDir : Bool
  modTime : String
  size : Int
  deriving DecidableEq, Repr

/-- gdrive.go: `getModTime` — ModifiedTime, falling back to
CreatedTime, falling back to the zero time (empty string here). -/
def getModTime (file : DriveFile) : String :=
  if file.modifiedTime = "" then file.createdTime else file.modifiedTime

/-- gdrive.go: `newFileInfo`. -/
def newFileInfo (file : DriveFile) : fileInfo :=
  { name := file.name
    isDir := if file.mimeType = mimeTypeFolder then true else false
    modTime := getModTime file
    size := file.size }

/-! ### Mutating operations: Mkdir, RemoveAll -/

/-- gdrive.go: `fileSystem.Mkdir`. -/
def Mkdir (fuel : Nat) (s : FSState) (name0 : String) : Option GoError × FSState :=
  let name := normalizePath name0
  let r := getFileID fuel s name false
  if r.1.2 ≠ none ∧ r.1.2 ≠ some GoError.errNotExist then (r.1.2, r.2)
  else if r.1.2 = none then (some GoError.errExist, r.2)
  else
    let parent := goPathDir name
    let dir := goPathBase name
    let r2 := getFileID fuel r.2 parent true
    match r2.1.2 with
    | some e => (some e, r2.2)
    | none =>
      if r2.1.1 = "" then (some GoError.errNotExist, r2.2)
      else
        let f : DriveFile :=
          { id := "", name := dir, mimeType := mimeTypeFolder, trashed := false
            size := 0, parents := [r2.1.1], createdTime := "", modifiedTime := "" }
        let s3 := recOp r2.2 (StoreOp.create dir [r2.1.1] true none)
        match s3.store.filesCreate f none with
        | Except.error e => (some e, s3)
        | Except.ok _ => (none, invalidatePath (invalidatePath s3 name) parent)

/-- gdrive.go: `fileSystem.RemoveAll`. -/
def RemoveAll (fuel : Nat) (s : FSState) (name0 : String) : Option GoError × FSState :=
  let name := normalizePath name0
  let r := getFileID fuel s name false
  match r.1.2 with
  | some e => (some e, r.2)
  | none =>
    let s2 := recOp r.2 (StoreOp.delete r.1.1)
    match s2.store.filesDelete r.1.1 with
    | some e => (some e, s2)
    | none => (none, invalidatePath (invalidatePath s2 name) (goPathDir name))

/-! ### The write handle -/

/-- gdrive.go: `openWritableFile` (the semantic fields: the
accumulation buffer, the running size, and the target path; the
context, filesystem pointer, flag and perm fields carry no
behaviour in the modelled code). -/
structure openWritableFile where
  buffer : List Nat
  size : Int
  name : String
  deriving DecidableEq, Repr

/-- The write handle `OpenFile` returns for `O_RDWR|O_CREATE|O_TRUNC`:
empty buffer, zero size. -/
def newWritableFile (name : String) : openWritableFile :=
  { buffer := [], size := 0, name := name }

/-- gdrive.go: `openWritableFile.Write` — `bytes.Buffer.Write` appends
and returns `(len(p), nil)`; the size field grows by `n`. -/
def openWritableFile.Write (f : openWritableFile) (p : List Nat) :
    (Nat × Option GoError) × openWritableFile :=
  ((p.length, none), { f with buffer := f.buffer ++ p, size := f.size + p.length })

/-- Apply a sequence of writes in order. -/
def writeAll (f : openWritableFile) : List (List Nat) → openWritableFile
  | [] => f
  | c :: cs => writeAll (openWritableFile.Write f c).2 cs

/-- gdrive.go: `openWritableFile.Close` — re-resolve the target path
(`AlreadyExists` when it resolves to a non-empty id), resolve the
parent as a folder, then one `Files.Create` carrying the whole buffer
as media, and invalidate the path and its parent. -/
def openWritableFile.Close (fuel : Nat) (s : FSState) (f : openWritableFile) :
    Option GoError × FSState :=
  let r := getFileID fuel s f.name false
  if r.1.2 ≠ none ∧ r.1.2 ≠ some GoError.errNotExist then (r.1.2, r.2)
  else if r.1.1 ≠ "" then (some GoError.errExist, r.2)
  else
    let parent := goPathDir f.name
    let base := goPathBase f.name
    let r2 := getFileID fuel r.2 parent true
    match r2.1.2 with
    | some e => (some e, r2.2)
    | none =>
      if r2.1.1 = "" then (some GoError.errNotExist, r2.2)
      else
        let file : DriveFile :=
          { id := "", name := base, mimeType := "", trashed := false
            size := 0, parents := [r2.1.1], createdTime := "", modifiedTime := "" }
        let s3 := recOp r2.2 (StoreOp.create base [r2.1.1] false (some f.buffer))
        match s3.store.filesCreate file (some f.buffer) with
        | Except.error e => (some e, s3)
        | Except.ok _ => (none, invalidatePath (invalidatePath s3 f.name) parent)

/-! ### The read handle -/

/-- Modelled from the spec: `getTimeoutReaderWrapperContext` is not
part of src/ (only its call site in `initContentReader` is).  Per
spec section 4.4, it wraps a network stream so that a read receiving
no bytes within the fixed stall timeout fails with a distinguishable
timeout error instead of hanging.  The stream is a list of chunks,
each tagged with the stall time before its bytes arrive; reading past
the end is `io.EOF`. -/
structure timeoutReader where
  timeout : Nat
  stream : List (Nat × List Nat)
  deriving DecidableEq, Repr

/-- Modelled from the spec: one read from the wrapped stream.  If the
next chunk stalls longer than the timeout the read fails with
`GoError.timeout`; an exhausted stream yields `io.EOF`. -/
def timeoutReader.readChunk (tr : timeoutReader) :
    Except GoError (List Nat) × timeoutReader :=
  match tr.stream with
  | [] => (Except.error GoError.eof, tr)
  | (stall, chunk) :: rest =>
    if tr.timeout < stall then (Except.error GoError.timeout, tr)
    else (Except.ok chunk, { tr with stream := rest })

/-- gdrive.go: `openReadonlyFile` (pointer fields become `Option`;
`body` keeps the raw download stream, `contentReader` the wrapped
reader). -/
structure openReadonlyFile where
  file : DriveFile
  content : Option (List Nat)
  size : Int
  pos : Int
  contentReader : Option timeoutReader
  name : String
  body : Option (List (Nat × List Nat))
  deriving DecidableEq, Repr

/-- gdrive.go: `initContentReader` — nothing to do when a reader is
already open; otherwise download the file body (propagating errors,
including a cancelled fifteen-second-stall download) and wrap it in
the timeout reader with a 15 second stall timeout. -/
def initContentReader (s : FSState) (f : openReadonlyFile) :
    (Option GoError × FSState) × openReadonlyFile :=
  match f.contentReader with
  | some _ => ((none, s), f)
  | none =>
    let s1 := recOp s (StoreOp.download f.file.id)
    match s1.store.filesDownload f.file.id with
    | Except.error e => ((some e, s1), f)
    | Except.ok body =>
      ((none, s1),
        { f with body := some body
                 contentReader := some { timeout := 15, stream := body } })

/-- gdrive.go: `openReadonlyFile.Read` — ensure the reader is open,
read one chunk (returned here as the bytes delivered to the caller's
buffer), return `(0, err)` on any error, and advance `pos` by the
number of bytes read. -/
def openReadonlyFile.Read (s : FSState) (f : openReadonlyFile) :
    (List Nat × Option GoError) × FSState × openReadonlyFile :=
  let r := initContentReader s f
  match r.1.1 with
  | some e => (([], some e), r.1.2, r.2)
  | none =>
    match r.2.contentReader with
    | none => (([], some GoError.nilDeref), r.1.2, r.2)
    | some tr =>
      let rc := tr.readChunk
      match rc.1 with
      | Except.error e =>
        (([], some e), r.1.2, { r.2 with contentReader := some rc.2 })
      | Except.ok chunk =>
        ((chunk, none), r.1.2,
          { r.2 with contentReader := some rc.2, pos := r.2.pos + chunk.length })

/-- The outcome of `Seek`: a new offset and handle state, or the
`panic("not implemented")` the Go code raises for any whence other
than start and end. -/
inductive seekResult where
  | ok (pos : Int) (f : openReadonlyFile)
  | panicked
  deriving DecidableEq, Repr

/-- gdrive.go: `openReadonlyFile.Seek` — whence 0 (`io.SeekStart`)
sets `pos` to 0 and returns it, leaving every other field (including
the open content reader) untouched; whence 2 (`io.SeekEnd`) copies the
object's known size into `size` and `pos` and returns it; anything
else panics. -/
def openReadonlyFile.Seek (f : openReadonlyFile) (_offset : Int) (whence : Nat) : seekResult :=
  if whence = 0 then seekResult.ok 0 { f with pos := 0 }
  else if whence = 2 then
    seekResult.ok f.file.size { f with size := f.file.size, pos := f.file.size }
  else seekResult.panicked

/-! ### Directory listing (Readdir) -/

/-- The `for _, file := range aLookup.fp.files` loop of `Readdir`:
skip trashed files; for each remaining child emit its `fileInfo` and
warm the path-lookup cache under `cacheKeyFile + name + "/" + child`
for `time.Minute`. -/
def readdirWarm (nm : String) (now : Nat) : Cache → List DriveFile → List fileInfo × Cache
  | c, [] => ([], c)
  | c, file :: rest =>
    if ignoreFile file then readdirWarm nm now c rest
    else
      let lookup : fileLookupResult :=
        { fp := some { file := some file, path := nm ++ "/" ++ file.name, files := [] }
          err := none }
      let c2 := cacheSet c now 60 (cacheKeyFile ++ (nm ++ "/" ++ file.name)) lookup
      let r := readdirWarm nm now c2 rest
      (newFileInfo file :: r.1, r.2)

/-- gdrive.go: `openReadonlyFile.Readdir` — serve the child list from
the cache under `cacheKeyDir + file.Id` when possible, otherwise query
all children of the container id, cache the raw snapshot for 5
seconds, and in both cases run the filter-and-warm loop.  The `count`
argument is ignored by the source. -/
def openReadonlyFile.Readdir (s : FSState) (f : openReadonlyFile) (_count : Int) :
    Except GoError (List fileInfo) × FSState :=
  match cacheGet s.cache s.now (cacheKeyDir ++ f.file.id) with
  | some lookup =>
    match lookup.fp with
    | some fp =>
      let r := readdirWarm f.name s.now s.cache fp.files
      (Except.ok r.1, { s with cache := r.2 })
    | none => (Except.error GoError.nilDeref, s)
  | none =>
    let s1 := recOp s (StoreOp.listChildren f.file.id)
    match s1.store.filesListChildren f.file.id with
    | Except.error e => (Except.error e, s1)
    | Except.ok rFiles =>
      let lookup : fileLookupResult :=
        { fp := some { file := some f.file, path := f.file.id, files := rFiles }
          err := none }
      let s2 := { s1 with
        cache := cacheSet s1.cache s1.now 5 (cacheKeyDir ++ f.file.id) lookup }
      let r := readdirWarm f.name s2.now s2.cache rFiles
      (Except.ok r.1, { s2 with cache := r.2 })

/-! ### Stat -/

/-- The outcome of `Stat`: metadata, a returned error, the
`f == nil` branch (which returns `os.ErrNotExist`), or the Go nil
dereference inside `newFileInfo(f.file)` when `f.file` is nil. -/
inductive statResult where
  | ok (info : fileInfo)
  | errResult (e : GoError)
  | nilFileAndPath
  | panicked
  deriving DecidableEq, Repr

/-- gdrive.go: `fileSystem.Stat` (note the source does not normalize
`name` before the lookup). -/
def Stat (fuel : Nat) (s : FSState) (name : String) : statResult × FSState :=
  let r := getFile fuel s name false
  match r.1.2 with
  | some e => (statResult.errResult e, r.2)
  | none =>
    match r.1.1 with
    | none => (statResult.nilFileAndPath, r.2)
    | some fp =>
      match fp.file with
      | some df => (statResult.ok (newFileInfo df), r.2)
      | none => (statResult.panicked, r.2)


-- path function sanity checks against Go path.Dir / path.Base / Clean

/-! ### Concrete fixtures used by witnesses and counterexamples

A three-object store: root `R` containing folder `docs` (id `D`)
containing file `a.txt` (id `F`, size 10), matching the scenario of
spec section 8. -/

def rootF : DriveFile :=
  { id := "R", name := "", mimeType := mimeTypeFolder, trashed := false
    size := 0, parents := [], createdTime := "", modifiedTime := "" }

def docsF : DriveFile :=
  { id := "D", name := "docs", mimeType := mimeTypeFolder, trashed := false
    size := 0, parents := ["R"], createdTime := "", modifiedTime := "" }

def aF : DriveFile :=
  { id := "F", name := "a.txt", mimeType := "text/plain", trashed := false
    size := 10, parents := ["D"], createdTime := "", modifiedTime := "" }

def store1 : RemoteStore :=
  { filesGet := fun i => if i = "root" then Except.ok rootF else Except.error (GoError.storeErr "no")
    filesList := fun pid nm _ =>
      if pid = "R" ∧ nm = "docs" then Except.ok [docsF]
      else if pid = "D" ∧ nm = "a.txt" then Except.ok [aF]
      else Except.ok []
    filesListChildren := fun pid => if pid = "D" then Except.ok [aF] else Except.ok []
    filesCreate := fun _ _ => Except.ok rootF
    filesDelete := fun _ => none
    filesDownload := fun _ => Except.ok [] }

/-- A cached directory-listing entry for container `D`, as `Readdir`
would store it under `cacheKeyDir ++ "D"`. -/
def dirLookup : fileLookupResult :=
  { fp := some { file := some docsF, path := "D", files := [aF] }, err := none }

/-- State whose cache holds the directory-listing entry of `D` (set
at time 0 with the 5 second TTL). -/
def st1 : FSState :=
  { cache := cacheSet cache0 0 5 (cacheKeyDir ++ "D") dirLookup
    now := 0, store := store1, trace := [] }

/-- State with the failing store: every remote call errors. -/
def store2 : RemoteStore := { store1 with filesGet := fun _ => Except.error (GoError.storeErr "down") }

def st2 : FSState := { cache := cache0, now := 0, store := store2, trace := [] }

/-- Empty-cache state over the three-object store. -/
def stw : FSState := { cache := cache0, now := 0, store := store1, trace := [] }

/-- A write handle on the fresh path "/docs/new.txt" carrying two
writes ("hi" then " w" as bytes). -/
def wf : openWritableFile := writeAll (newWritableFile "/docs/new.txt") [[104, 105], [32, 119]]

/-- A write handle on the already-existing path "/docs/a.txt". -/
def wf2 : openWritableFile := writeAll (newWritableFile "/docs/a.txt") [[1]]

/-! ### Invariants and evolution lemmas -/

/-- A cache value as only ever produced by a successful lookup: nil
error and a file-and-path whose file pointer is non-nil. -/
def goodLookup (v : fileLookupResult) : Prop :=
  v.err = none ∧ ∃ a df, v.fp = some a ∧ a.file = some df

/-- Every entry of the shared cache is a successful lookup.  This
holds of the empty cache and is preserved by every operation that
stores into it (`getFile` on success, `Readdir`). -/
def CacheWF (c : Cache) : Prop :=
  ∀ k v exp, c k = some (v, exp) → goodLookup v

/-- How a state may change across a resolution call: the clock and
the store are untouched, the trace grows by query (non-mutating)
operations only, no cache key is deleted, and cache well-formedness
is preserved. -/
def StateEvolve (s s' : FSState) : Prop :=
  s'.now = s.now ∧ s'.store = s.store ∧
  (∃ ext, s'.trace = s.trace ++ ext ∧ ∀ op ∈ ext, op.isMut = false) ∧
  (∀ k v, s.cache k = some v → ∃ v', s'.cache k = some v') ∧
  (CacheWF s.cache → CacheWF s'.cache)

/-! ### Claim C1 -/

/-- No key with an entry in `c` is absent from `c'`. -/
def cacheKeeps (c c' : Cache) : Prop :=
  ∀ k v, c k = some v → ∃ v', c' k = some v'

/-! ### Claim C3 -/

/-- A read handle mid-stream: the download produced two chunks, the
first was already consumed (`pos = 2`), the wrapped reader still holds
the second chunk `[9, 9]`. -/
def roFile : openReadonlyFile :=
  { file := aF, content := none, size := 0, pos := 2
    contentReader := some { timeout := 15, stream := [(0, [9, 9])] }
    name := "/docs/a.txt", body := some [(0, [1, 1]), (0, [9, 9])] }

/-- The read handle `OpenFile` would return for the container "/docs". -/
def roDocs : openReadonlyFile :=
  { file := docsF, content := none, size := 0, pos := 0
    contentReader := none, name := "/docs", body := none }

/-! ### Path-length lemmas

These support claim C5: during resolution of a rooted (slash-leading)
path, every cache key written by the recursive parent lookups belongs
to a strictly shorter path, so a failed lookup can never leave an
entry under its own key. -/

/-- A rooted path starts with a slash (every path the WebDAV handler
passes down is rooted). -/
def rootedStr (p : String) : Prop := p.data.head? = some '/'

/-- Segment-list size: total characters plus one separator per
segment. -/
def segsLen (segs : List (List Char)) : Nat :=
  (segs.map List.length).sum + segs.length

/-- The embedded Go standard library path helpers agree with
`path.Dir`, `path.Base`, `path.Clean` and `strings.TrimRight` on
representative inputs. -/
theorem goPath_model_checks :
    goPathDir "/docs/a.txt" = "/docs" ∧ goPathDir "/docs" = "/" ∧
    goPathDir "/" = "/" ∧ goPathDir "docs" = "." ∧ goPathDir "/a//b" = "/a" ∧
    goPathBase "/docs/a.txt" = "a.txt" ∧ goPathBase "/" = "/" ∧
    goPathBase "" = "." ∧ goPathBase "/a/" = "a" ∧
    goClean "/a/../b" = "/b" ∧ goClean "a/b/.." = "a" ∧ goClean "" = "." ∧
    goClean "/.." = "/" ∧ goClean "../a" = "../a" ∧
    normalizePath "/" = "" ∧ normalizePath "/docs/" = "/docs" := by
  decide

theorem stateEvolve_refl (s : FSState) : StateEvolve s s :=
  ⟨rfl, rfl, ⟨[], by simp, by simp⟩, fun k v h => ⟨v, h⟩, id⟩

theorem StateEvolve.trans {s1 s2 s3 : FSState}
    (h12 : StateEvolve s1 s2) (h23 : StateEvolve s2 s3) : StateEvolve s1 s3 := by
  obtain ⟨hn12, hs12, ⟨e12, ht12, hm12⟩, hc12, hw12⟩ := h12
  obtain ⟨hn23, hs23, ⟨e23, ht23, hm23⟩, hc23, hw23⟩ := h23
  refine ⟨hn23.trans hn12, hs23.trans hs12, ⟨e12 ++ e23, ?_, ?_⟩, ?_, fun hw => hw23 (hw12 hw)⟩
  · rw [ht23, ht12, List.append_assoc]
  · intro op hop
    rcases List.mem_append.mp hop with h | h
    · exact hm12 op h
    · exact hm23 op h
  · intro k v h
    obtain ⟨v', h'⟩ := hc12 k v h
    exact hc23 k v' h'

theorem stateEvolve_recOp (s : FSState) (op : StoreOp) (hop : op.isMut = false) :
    StateEvolve s (recOp s op) :=
  ⟨rfl, rfl, ⟨[op], rfl, by simpa using hop⟩, fun k v h => ⟨v, h⟩, id⟩

theorem stateEvolve_set (s : FSState) (k : String) (ttl : Nat) (v : fileLookupResult)
    (hv : goodLookup v) :
    StateEvolve s { s with cache := cacheSet s.cache s.now ttl k v } := by
  refine ⟨rfl, rfl, ⟨[], by simp, by simp⟩, ?_, ?_⟩
  · intro k' v' h
    by_cases hk : k' = k
    · exact ⟨(v, s.now + ttl), by simp [cacheSet, hk]⟩
    · exact ⟨v', by simpa [cacheSet, hk] using h⟩
  · intro hw k' v' exp h
    by_cases hk : k' = k
    · simp only [cacheSet, hk, if_pos rfl] at h
      cases h
      exact hv
    · simp only [cacheSet, hk, if_neg hk] at h
      exact hw k' v' exp h

theorem cacheGet_some {c : Cache} {now : Nat} {k : String} {v : fileLookupResult}
    (h : cacheGet c now k = some v) : ∃ exp, c k = some (v, exp) := by
  unfold cacheGet at h
  split at h
  · exact absurd h (by simp)
  · rename_i v' exp heq
    split at h
    · exact absurd h (by simp)
    · cases h
      exact ⟨exp, heq⟩

theorem getRootFile_evolve (s : FSState) : StateEvolve s (getRootFile s).2 := by
  unfold getRootFile
  dsimp only
  split
  · exact stateEvolve_recOp s _ rfl
  · exact stateEvolve_recOp s _ rfl

theorem getRootFile_success_good {s s' : FSState} {fp : Option fileAndPath}
    (h : getRootFile s = ((fp, none), s')) :
    ∃ a df, fp = some a ∧ a.file = some df := by
  unfold getRootFile at h
  dsimp only at h
  split at h
  · simp at h
  · rename_i f _
    simp only [Prod.mk.injEq] at h
    exact ⟨_, f, h.1.1.symm, rfl⟩

/-- A successful `getFile0` always returns a non-nil `fileAndPath`
whose `file` field is non-nil. -/
theorem getFile0_success_good {fuel : Nat} {s : FSState} {p : String} {of : Bool}
    {fp : Option fileAndPath} {s' : FSState}
    (h : getFile0 fuel s p of = ((fp, none), s')) :
    ∃ a df, fp = some a ∧ a.file = some df := by
  cases fuel with
  | zero =>
    unfold getFile0 at h
    split at h
    · exact getRootFile_success_good h
    · simp at h
  | succ n =>
    unfold getFile0 at h
    dsimp only at h
    split at h
    · exact getRootFile_success_good h
    · split at h
      · simp at h
      · split at h
        · simp at h
        · split at h
          · rename_i file _
            simp only [Prod.mk.injEq] at h
            exact ⟨_, file, h.1.1.symm, rfl⟩
          · simp at h

/-- Resolution calls only query, never mutate: across `getFile`,
`getFile0` and `getFileID` the clock and remote store are unchanged,
the trace grows by non-mutating query operations only, no cache entry
is deleted, and cache well-formedness is preserved. -/
theorem resolveEvolve (fuel : Nat) :
    (∀ s p of, StateEvolve s (getFile fuel s p of).2) ∧
    (∀ s p of, StateEvolve s (getFile0 fuel s p of).2) ∧
    (∀ s p of, StateEvolve s (getFileID fuel s p of).2) := by
  induction fuel with
  | zero =>
    refine ⟨?_, ?_, ?_⟩
    · intro s p of
      unfold getFile
      split
      · exact stateEvolve_refl s
      · exact stateEvolve_refl s
    · intro s p of
      unfold getFile0
      split
      · exact getRootFile_evolve s
      · exact stateEvolve_refl s
    · intro s p of
      unfold getFileID
      exact stateEvolve_refl s
  | succ n ih =>
    refine ⟨?_, ?_, ?_⟩
    · intro s p of
      unfold getFile
      dsimp only
      split
      · exact stateEvolve_refl s
      · split
        · rename_i heq
          refine StateEvolve.trans (ih.2.1 s p of) (stateEvolve_set _ _ _ _ ?_)
          refine ⟨heq, ?_⟩
          exact getFile0_success_good (by rw [← heq])
        · exact ih.2.1 s p of
    · intro s p of
      unfold getFile0
      dsimp only
      split
      · exact getRootFile_evolve s
      · split
        · exact ih.2.2 s _ true
        · split
          · exact StateEvolve.trans (ih.2.2 s _ true) (stateEvolve_recOp _ _ rfl)
          · split
            · exact StateEvolve.trans (ih.2.2 s _ true) (stateEvolve_recOp _ _ rfl)
            · exact StateEvolve.trans (ih.2.2 s _ true) (stateEvolve_recOp _ _ rfl)
    · intro s p of
      unfold getFileID
      dsimp only
      split
      · exact ih.1 s p of
      · split
        · split
          · exact ih.1 s p of
          · exact ih.1 s p of
        · exact ih.1 s p of

/-- A successful `getFile` from a well-formed cache returns a non-nil
`fileAndPath` whose `file` field is non-nil. -/
theorem getFile_success_good {fuel : Nat} {s : FSState} {p : String} {of : Bool}
    {fp : Option fileAndPath} {s' : FSState} (hwf : CacheWF s.cache)
    (h : getFile fuel s p of = ((fp, none), s')) :
    ∃ a df, fp = some a ∧ a.file = some df := by
  cases fuel with
  | zero =>
    unfold getFile at h
    split at h
    · rename_i result heq
      obtain ⟨exp, hc⟩ := cacheGet_some heq
      obtain ⟨_, a, df, hfp, hfile⟩ := hwf _ _ _ hc
      simp only [Prod.mk.injEq] at h
      exact ⟨a, df, h.1.1 ▸ hfp, hfile⟩
    · simp at h
  | succ n =>
    unfold getFile at h
    dsimp only at h
    split at h
    · rename_i result heq
      obtain ⟨exp, hc⟩ := cacheGet_some heq
      obtain ⟨_, a, df, hfp, hfile⟩ := hwf _ _ _ hc
      simp only [Prod.mk.injEq] at h
      exact ⟨a, df, h.1.1 ▸ hfp, hfile⟩
    · split at h
      · rename_i heq
        simp only [Prod.mk.injEq] at h
        exact getFile0_success_good
          (show getFile0 n s p of = ((fp, none), (getFile0 n s p of).2) by
            rw [← h.1.1, ← heq])
      · rename_i e heq
        simp only [Prod.mk.injEq, heq] at h
        exact absurd h.1.2 (by simp)

/-! ### Claim C10 -/

/-- Claim C10: whenever `getFile` returns a nil error it returns a
non-nil `fileAndPath` whose `file` field is non-nil (never a nil
result with a nil error) — so the dereferences of the result in
`getFileID` and `Stat` are safe — and `Stat` can reach neither its
`f == nil` branch nor the nil dereference inside `newFileInfo`.
Stated for any state whose shared cache is well-formed (the empty
initial cache is, and `resolveEvolve` shows every resolution
preserves this). -/
theorem claim_C10_getFile_success_nonnil (s : FSState) (hwf : CacheWF s.cache) :
    (∀ fuel p of fp s', getFile fuel s p of = ((fp, none), s') →
      ∃ a df, fp = some a ∧ a.file = some df) ∧
    (∀ fuel name r s', Stat fuel s name = (r, s') →
      r ≠ statResult.nilFileAndPath ∧ r ≠ statResult.panicked) := by
  constructor
  · intro fuel p of fp s' h
    exact getFile_success_good hwf h
  · intro fuel name r s' h
    unfold Stat at h
    dsimp only at h
    split at h
    · simp only [Prod.mk.injEq] at h
      rw [← h.1]
      exact ⟨by simp, by simp⟩
    · rename_i herr
      have hgood := getFile_success_good hwf
        (show getFile fuel s name false =
            (((getFile fuel s name false).1.1, none), (getFile fuel s name false).2) by
          rw [← herr])
      obtain ⟨a, df, ha, hfile⟩ := hgood
      split at h
      · rename_i hfp
        rw [hfp] at ha
        exact absurd ha (by simp)
      · rename_i fp0 hfp
        rw [hfp] at ha
        cases ha
        split at h
        · simp only [Prod.mk.injEq] at h
          rw [← h.1]
          exact ⟨by simp, by simp⟩
        · rename_i hnone
          rw [hnone] at hfile
          exact absurd hfile (by simp)

/-- Witness for C10 at a concrete input: the empty cache is
well-formed, and a concrete successful lookup of the root path indeed
returns a file. -/
theorem claim_C10_witness :
    ∃ a df, (getFile 1 stw "/" false).1.1 = some a ∧ a.file = some df :=
  (claim_C10_getFile_success_nonnil stw
      (fun _ _ _ h => nomatch h)).1 1 "/" false _ _ rfl

/-! ### Claim C4 -/

/-- Claim C4: closing a write handle whose path already resolves to an
existing object (nil error, non-empty id) returns `os.ErrExist`, and
the whole call performs zero remote mutations — the trace grows only
by the (non-mutating) lookup queries of the existence check, so no
create call is issued and none of the buffered bytes are sent. -/
theorem claim_C4_close_already_exists {fuel : Nat} {s s1 : FSState}
    {f : openWritableFile} {id : String}
    (hres : getFileID fuel s f.name false = ((id, none), s1)) (hid : id ≠ "") :
    openWritableFile.Close fuel s f = (some GoError.errExist, s1) ∧
    ∃ ext, s1.trace = s.trace ++ ext ∧ ∀ op ∈ ext, op.isMut = false := by
  constructor
  · unfold openWritableFile.Close
    dsimp only
    rw [hres]
    dsimp only
    rw [if_neg (by simp)]
    rw [if_pos hid]
  · have h := (resolveEvolve fuel).2.2 s f.name false
    rw [hres] at h
    exact h.2.2.1

/-- Witness for C4: closing `wf2` (path "/docs/a.txt", which exists in
the concrete store) returns `os.ErrExist` and issues no mutation. -/
theorem claim_C4_witness :
    openWritableFile.Close 10 stw wf2 =
      (some GoError.errExist, (getFileID 10 stw wf2.name false).2) ∧
    ∃ ext, (getFileID 10 stw wf2.name false).2.trace = stw.trace ++ ext ∧
      ∀ op ∈ ext, op.isMut = false :=
  claim_C4_close_already_exists (Prod.ext (by decide) rfl) (by decide)

/-! ### Claim C6 -/

theorem writeAll_spec (f : openWritableFile) (ws : List (List Nat)) :
    (writeAll f ws).buffer = f.buffer ++ ws.flatten ∧ (writeAll f ws).name = f.name := by
  induction ws generalizing f with
  | nil => simp [writeAll]
  | cons c cs ih =>
    have h := ih { f with buffer := f.buffer ++ c, size := f.size + c.length }
    simpa [writeAll, openWritableFile.Write, List.append_assoc] using h

/-- Dissection of a successful `Close`: the trace grows by the lookup
queries plus exactly one mutating operation, the `Files.Create` call
carrying the base name, the id the parent-path lookup resolved to (a folder lookup that
succeeded with a non-empty id) and the whole buffer as media. -/
theorem close_success_create {fuel : Nat} {s s' : FSState} {f : openWritableFile}
    (h : openWritableFile.Close fuel s f = (none, s')) :
    ∃ ext, s'.trace = s.trace ++ ext ∧
      (getFileID fuel (getFileID fuel s f.name false).2 (goPathDir f.name) true).1.2 =
        none ∧
      (getFileID fuel (getFileID fuel s f.name false).2 (goPathDir f.name) true).1.1 ≠
        "" ∧
      ext.filter (fun op => op.isMut) =
        [StoreOp.create (goPathBase f.name)
          [(getFileID fuel (getFileID fuel s f.name false).2 (goPathDir f.name) true).1.1]
          false (some f.buffer)] := by
  unfold openWritableFile.Close at h
  dsimp only at h
  split at h
  · rename_i hcond
    simp only [Prod.mk.injEq] at h
    exact absurd h.1 hcond.1
  · split at h
    · simp at h
    · split at h
      · simp at h
      · rename_i herr2
        split at h
        · simp at h
        · rename_i hpid
          split at h
          · simp at h
          · simp only [Prod.mk.injEq] at h
            obtain ⟨-, -, ⟨ext1, ht1, hm1⟩, -, -⟩ :=
              (resolveEvolve fuel).2.2 s f.name false
            obtain ⟨-, -, ⟨ext2, ht2, hm2⟩, -, -⟩ :=
              (resolveEvolve fuel).2.2 (getFileID fuel s f.name false).2
                (goPathDir f.name) true
            refine ⟨ext1 ++ (ext2 ++
              [StoreOp.create (goPathBase f.name)
                [(getFileID fuel (getFileID fuel s f.name false).2 (goPathDir f.name) true).1.1]
                false (some f.buffer)]),
              ?_, herr2, hpid, ?_⟩
            · rw [← h.2]
              show ((recOp _ _).trace) = _
              unfold recOp
              dsimp only
              rw [ht2, ht1, List.append_assoc, List.append_assoc]
            · have e1 : ext1.filter (fun op => op.isMut) = [] :=
                List.filter_eq_nil_iff.mpr (by intro a ha; simp [hm1 a ha])
              have e2 : ext2.filter (fun op => op.isMut) = [] :=
                List.filter_eq_nil_iff.mpr (by intro a ha; simp [hm2 a ha])
              rw [List.filter_append, List.filter_append, e1, e2]
              simp [StoreOp.isMut]

/-- Claim C6: `Write` always succeeds, appending its bytes to the
in-memory buffer and returning their length with a nil error (and, by
its very signature, touching neither the cache nor the remote store);
a successful `Close` of a handle carrying writes `ws` performs exactly
one remote mutation: a create whose name is the path's base name,
whose parent is exactly the id obtained by resolving the parent path
`goPathDir name` as a folder (a lookup that returned a nil error and a
non-empty id), and whose media is the concatenation of all written
chunks in order. -/
theorem claim_C6_write_then_single_create :
    (∀ (f : openWritableFile) (p : List Nat),
      openWritableFile.Write f p =
        ((p.length, none),
          { f with buffer := f.buffer ++ p, size := f.size + (p.length : Int) })) ∧
    (∀ (name : String) (ws : List (List Nat)) (fuel : Nat) (s s' : FSState),
      openWritableFile.Close fuel s (writeAll (newWritableFile name) ws) = (none, s') →
      ∃ ext, s'.trace = s.trace ++ ext ∧
        (getFileID fuel (getFileID fuel s name false).2 (goPathDir name) true).1.2 =
          none ∧
        (getFileID fuel (getFileID fuel s name false).2 (goPathDir name) true).1.1 ≠
          "" ∧
        ext.filter (fun op => op.isMut) =
          [StoreOp.create (goPathBase name)
            [(getFileID fuel (getFileID fuel s name false).2 (goPathDir name) true).1.1]
            false (some ws.flatten)]) := by
  refine ⟨fun f p => rfl, ?_⟩
  intro name ws fuel s s' h
  have hb := writeAll_spec (newWritableFile name) ws
  have hc := close_success_create h
  rw [hb.1, hb.2] at hc
  simpa [newWritableFile] using hc

/-- Witness for C6: the concrete two-write handle `wf` on
"/docs/new.txt", closed against the three-object store, issues exactly
one create with media "hi w", under the id that resolving the parent
path "/docs" as a folder returned (concretely "D"). -/
theorem claim_C6_witness :
    ∃ ext, (openWritableFile.Close 10 stw wf).2.trace = stw.trace ++ ext ∧
      (getFileID 10 (getFileID 10 stw "/docs/new.txt" false).2
        (goPathDir "/docs/new.txt") true).1.2 = none ∧
      (getFileID 10 (getFileID 10 stw "/docs/new.txt" false).2
        (goPathDir "/docs/new.txt") true).1.1 ≠ "" ∧
      ext.filter (fun op => op.isMut) =
        [StoreOp.create (goPathBase "/docs/new.txt")
          [(getFileID 10 (getFileID 10 stw "/docs/new.txt" false).2
            (goPathDir "/docs/new.txt") true).1.1]
          false (some ([[104, 105], [32, 119]] : List (List Nat)).flatten)] :=
  claim_C6_write_then_single_create.2 "/docs/new.txt" [[104, 105], [32, 119]] 10 stw
    (openWritableFile.Close 10 stw wf).2 (Prod.ext (by decide) rfl)

theorem cacheKeeps_trans {c1 c2 c3 : Cache}
    (h12 : cacheKeeps c1 c2) (h23 : cacheKeeps c2 c3) : cacheKeeps c1 c3 := by
  intro k v h
  obtain ⟨v', h'⟩ := h12 k v h
  exact h23 k v' h'

/-- The cache shape after the `invalidatePath(name); invalidatePath(parent)`
pair every successful mutator ends with: both path keys are gone, and
every other key an earlier state held survives (possibly refreshed). -/
theorem invalidate_pair_cache {s t : FSState} (hkeeps : cacheKeeps s.cache t.cache)
    (a b : String) :
    (invalidatePath (invalidatePath t a) b).cache (cacheKeyFile ++ a) = none ∧
    (invalidatePath (invalidatePath t a) b).cache (cacheKeyFile ++ b) = none ∧
    ∀ k, k ≠ cacheKeyFile ++ a → k ≠ cacheKeyFile ++ b →
      ∀ v, s.cache k = some v →
        ∃ v', (invalidatePath (invalidatePath t a) b).cache k = some v' := by
  refine ⟨?_, ?_, ?_⟩
  · show cacheDelete (cacheDelete t.cache (cacheKeyFile ++ a)) (cacheKeyFile ++ b)
      (cacheKeyFile ++ a) = none
    unfold cacheDelete
    by_cases hab : cacheKeyFile ++ a = cacheKeyFile ++ b <;> simp [hab]
  · show cacheDelete (cacheDelete t.cache (cacheKeyFile ++ a)) (cacheKeyFile ++ b)
      (cacheKeyFile ++ b) = none
    unfold cacheDelete
    simp
  · intro k hka hkb v hv
    obtain ⟨v', hv'⟩ := hkeeps k v hv
    refine ⟨v', ?_⟩
    show cacheDelete (cacheDelete t.cache (cacheKeyFile ++ a)) (cacheKeyFile ++ b) k = some v'
    unfold cacheDelete
    simp only [if_neg hkb, if_neg hka]
    exact hv'

/-- Counterexample to claim C1 as stated: in the concrete three-object
store with the directory-listing entry of container `D` cached (state
`st1`), `RemoveAll "/docs/a.txt"` succeeds, yet the directory-listing
cache entry of the removed object's parent container — keyed by the
container's id `D`, not by its path — survives the operation intact. -/
theorem claim_C1_counterexample :
    (RemoveAll 10 st1 "/docs/a.txt").1 = none ∧
    cacheGet (RemoveAll 10 st1 "/docs/a.txt").2.cache
      (RemoveAll 10 st1 "/docs/a.txt").2.now (cacheKeyDir ++ "D") = some dirLookup := by
  exact ⟨by decide, by decide⟩

/-- Claim C1 as amended: every successful `Mkdir`, `Close` (of a write
handle) and `RemoveAll` invalidates exactly the two path-lookup cache
keys — `cacheKeyFile` plus the mutated path and `cacheKeyFile` plus
its parent path — and deletes nothing else: every other key present
before the call is still present after it.  In particular the
directory-listing entry cached under the parent container's id is not
invalidated (it only expires by its 5 second TTL), except in the
degenerate case where that id equals one of the two path strings. -/
theorem claim_C1_amended_invalidation :
    (∀ fuel s name0 s', Mkdir fuel s name0 = (none, s') →
      s'.cache (cacheKeyFile ++ normalizePath name0) = none ∧
      s'.cache (cacheKeyFile ++ goPathDir (normalizePath name0)) = none ∧
      ∀ k, k ≠ cacheKeyFile ++ normalizePath name0 →
        k ≠ cacheKeyFile ++ goPathDir (normalizePath name0) →
        ∀ v, s.cache k = some v → ∃ v', s'.cache k = some v') ∧
    (∀ fuel s (f : openWritableFile) s', openWritableFile.Close fuel s f = (none, s') →
      s'.cache (cacheKeyFile ++ f.name) = none ∧
      s'.cache (cacheKeyFile ++ goPathDir f.name) = none ∧
      ∀ k, k ≠ cacheKeyFile ++ f.name → k ≠ cacheKeyFile ++ goPathDir f.name →
        ∀ v, s.cache k = some v → ∃ v', s'.cache k = some v') ∧
    (∀ fuel s name0 s', RemoveAll fuel s name0 = (none, s') →
      s'.cache (cacheKeyFile ++ normalizePath name0) = none ∧
      s'.cache (cacheKeyFile ++ goPathDir (normalizePath name0)) = none ∧
      ∀ k, k ≠ cacheKeyFile ++ normalizePath name0 →
        k ≠ cacheKeyFile ++ goPathDir (normalizePath name0) →
        ∀ v, s.cache k = some v → ∃ v', s'.cache k = some v') := by
  have keeps1 : ∀ fuel s p of, cacheKeeps s.cache (getFileID fuel s p of).2.cache :=
    fun fuel s p of => ((resolveEvolve fuel).2.2 s p of).2.2.2.1
  refine ⟨?_, ?_, ?_⟩
  · intro fuel s name0 s' h
    unfold Mkdir at h
    dsimp only at h
    split at h
    · rename_i hcond
      simp only [Prod.mk.injEq] at h
      exact absurd h.1 hcond.1
    · split at h
      · simp at h
      · split at h
        · simp at h
        · split at h
          · simp at h
          · split at h
            · simp at h
            · simp only [Prod.mk.injEq] at h
              rw [← h.2]
              exact invalidate_pair_cache
                (cacheKeeps_trans (keeps1 fuel s (normalizePath name0) false)
                  (keeps1 fuel _ (goPathDir (normalizePath name0)) true)) _ _
  · intro fuel s f s' h
    unfold openWritableFile.Close at h
    dsimp only at h
    split at h
    · rename_i hcond
      simp only [Prod.mk.injEq] at h
      exact absurd h.1 hcond.1
    · split at h
      · simp at h
      · split at h
        · simp at h
        · split at h
          · simp at h
          · split at h
            · simp at h
            · simp only [Prod.mk.injEq] at h
              rw [← h.2]
              exact invalidate_pair_cache
                (cacheKeeps_trans (keeps1 fuel s f.name false)
                  (keeps1 fuel _ (goPathDir f.name) true)) _ _
  · intro fuel s name0 s' h
    unfold RemoveAll at h
    dsimp only at h
    split at h
    · simp at h
    · split at h
      · simp at h
      · simp only [Prod.mk.injEq] at h
        rw [← h.2]
        exact invalidate_pair_cache (keeps1 fuel s (normalizePath name0) false) _ _

/-- Witness for the amended C1: the concrete successful removal of
"/docs/a.txt" leaves both path-lookup keys absent while any other key
(here the dir-listing key "file:D") survives. -/
theorem claim_C1_amended_witness :
    (RemoveAll 10 st1 "/docs/a.txt").2.cache
      (cacheKeyFile ++ normalizePath "/docs/a.txt") = none ∧
    (RemoveAll 10 st1 "/docs/a.txt").2.cache
      (cacheKeyFile ++ goPathDir (normalizePath "/docs/a.txt")) = none ∧
    ∀ k, k ≠ cacheKeyFile ++ normalizePath "/docs/a.txt" →
      k ≠ cacheKeyFile ++ goPathDir (normalizePath "/docs/a.txt") →
      ∀ v, st1.cache k = some v →
        ∃ v', (RemoveAll 10 st1 "/docs/a.txt").2.cache k = some v' :=
  claim_C1_amended_invalidation.2.2 10 st1 "/docs/a.txt"
    (RemoveAll 10 st1 "/docs/a.txt").2 (Prod.ext (by decide) rfl)

/-! ### Claim C2 -/

/-- Counterexample to claim C2 as stated: with a store whose metadata
endpoint is down, resolving the root path "/" (which normalizes to the
empty string) issues one remote query — `Files.Get("root")` appears in
the trace — and fails, contradicting both "always succeeds" and
"issues no remote-store query". -/
theorem claim_C2_counterexample :
    (getFile0 1 st2 "/" false).1 = (none, some (GoError.storeErr "down")) ∧
    (getFile0 1 st2 "/" false).2.trace = [StoreOp.get "root"] :=
  ⟨by decide, by decide⟩

/-- Claim C2 as amended: resolving any input that normalizes to the
empty string issues exactly one remote query, `Files.Get("root")` —
no children listing and no parent resolution — and returns the
fetched root object (at path "/") exactly when that query succeeds,
propagating the store error otherwise. -/
theorem claim_C2_amended_root_resolution (fuel : Nat) (s : FSState) (p : String)
    (of : Bool) (hp : normalizePath p = "") :
    (getFile0 fuel s p of).2.trace = s.trace ++ [StoreOp.get "root"] ∧
    (∀ f, s.store.filesGet "root" = Except.ok f →
      (getFile0 fuel s p of).1 =
        (some { file := some f, path := "/", files := [] }, none)) ∧
    (∀ e, s.store.filesGet "root" = Except.error e →
      (getFile0 fuel s p of).1 = (none, some e)) := by
  have hroot : getFile0 fuel s p of = getRootFile s := by
    cases fuel with
    | zero =>
      unfold getFile0
      rw [if_pos hp]
    | succ n =>
      unfold getFile0
      dsimp only
      rw [if_pos hp]
  rw [hroot]
  unfold getRootFile recOp
  dsimp only
  refine ⟨?_, ?_, ?_⟩
  · split <;> rfl
  · intro f hf
    split
    · rename_i e he
      rw [hf] at he
      cases he
    · rename_i f' hf'
      rw [hf] at hf'
      cases hf'
      rfl
  · intro e he
    split
    · rename_i e' he'
      rw [he] at he'
      cases he'
      rfl
    · rename_i f hf
      rw [he] at hf
      cases hf

/-- Witness for the amended C2: against the three-object store the
root resolution issues the single get and succeeds with the root
object. -/
theorem claim_C2_amended_witness :
    (getFile0 1 stw "/" false).2.trace = stw.trace ++ [StoreOp.get "root"] ∧
    (∀ f, stw.store.filesGet "root" = Except.ok f →
      (getFile0 1 stw "/" false).1 =
        (some { file := some f, path := "/", files := [] }, none)) ∧
    (∀ e, stw.store.filesGet "root" = Except.error e →
      (getFile0 1 stw "/" false).1 = (none, some e)) :=
  claim_C2_amended_root_resolution 1 stw "/" false (by decide)

/-- Counterexample to claim C3 as stated: after seek-to-start on the
mid-stream handle `roFile`, the already-buffered network stream state
is NOT discarded (the content reader survives), and the next read does
NOT reopen the stream from the beginning: it performs no download
(trace unchanged) and returns the already-open stream's next chunk
`[9, 9]` instead of the first chunk `[1, 1]`. -/
theorem claim_C3_counterexample :
    openReadonlyFile.Seek roFile 0 0 = seekResult.ok 0 { roFile with pos := 0 } ∧
    ({ roFile with pos := 0 } : openReadonlyFile).contentReader ≠ none ∧
    (openReadonlyFile.Read stw { roFile with pos := 0 }).1 = ([9, 9], none) ∧
    (openReadonlyFile.Read stw { roFile with pos := 0 }).2.1.trace = stw.trace :=
  ⟨by decide, by decide, by decide, by decide⟩

/-- Claim C3 as amended: seek with whence = start resets the read
position to zero but keeps the open content reader, so the next read
continues the existing stream (no new download is issued and the
stream is not reopened from the beginning); seek with whence = end
reports the object's known size (copying it into `size` and `pos`)
while, by its very signature, performing no read and no remote call. -/
theorem claim_C3_amended_seek (f : openReadonlyFile) (off : Int) (s : FSState)
    (tr : timeoutReader) (hr : f.contentReader = some tr) :
    openReadonlyFile.Seek f off 0 = seekResult.ok 0 { f with pos := 0 } ∧
    ({ f with pos := 0 } : openReadonlyFile).contentReader = some tr ∧
    (openReadonlyFile.Read s { f with pos := 0 }).2.1 = s ∧
    (∀ chunk tr', tr.readChunk = (Except.ok chunk, tr') →
      (openReadonlyFile.Read s { f with pos := 0 }).1 = (chunk, none)) ∧
    openReadonlyFile.Seek f off 2 =
      seekResult.ok f.file.size { f with size := f.file.size, pos := f.file.size } := by
  have hf0 : ({ f with pos := 0 } : openReadonlyFile).contentReader = some tr := hr
  have hinit : initContentReader s { f with pos := 0 } = ((none, s), { f with pos := 0 }) := by
    unfold initContentReader
    rw [hf0]
  refine ⟨?_, hf0, ?_, ?_, ?_⟩
  · unfold openReadonlyFile.Seek
    rw [if_pos rfl]
  · unfold openReadonlyFile.Read
    rw [hinit]
    dsimp only
    rw [hf0]
    dsimp only
    split <;> rfl
  · intro chunk tr' hchunk
    unfold openReadonlyFile.Read
    rw [hinit]
    dsimp only
    rw [hf0]
    dsimp only
    rw [hchunk]
  · unfold openReadonlyFile.Seek
    rw [if_neg (by decide), if_pos rfl]

/-- Witness for the amended C3 on the concrete mid-stream handle. -/
theorem claim_C3_amended_witness :
    openReadonlyFile.Seek roFile 0 0 = seekResult.ok 0 { roFile with pos := 0 } ∧
    ({ roFile with pos := 0 } : openReadonlyFile).contentReader =
      some { timeout := 15, stream := [(0, [9, 9])] } ∧
    (openReadonlyFile.Read stw { roFile with pos := 0 }).2.1 = stw ∧
    (∀ chunk tr',
      timeoutReader.readChunk { timeout := 15, stream := [(0, [9, 9])] } =
        (Except.ok chunk, tr') →
      (openReadonlyFile.Read stw { roFile with pos := 0 }).1 = (chunk, none)) ∧
    openReadonlyFile.Seek roFile 0 2 =
      seekResult.ok roFile.file.size
        { roFile with size := roFile.file.size, pos := roFile.file.size } :=
  claim_C3_amended_seek roFile 0 stw { timeout := 15, stream := [(0, [9, 9])] } rfl

/-! ### Claim C9 -/

/-- Claim C9: a read from an open stream whose next bytes stall
beyond the fixed 15 second timeout returns the distinguishable
timeout error — zero bytes delivered, an error that is neither nil
nor `io.EOF` — rather than data or end-of-stream.  (There is no
indefinite block to rule out: every read in this model is a total
function, mirroring the wrapper's guarantee of returning within the
stall timeout.)  The stall-timeout wrapper itself is modelled from
spec section 4.4, since `getTimeoutReaderWrapperContext` is not part
of src/. -/
theorem claim_C9_stall_timeout (s : FSState) (f : openReadonlyFile)
    (stall : Nat) (chunk : List Nat) (rest : List (Nat × List Nat))
    (hr : f.contentReader = some { timeout := 15, stream := (stall, chunk) :: rest })
    (hstall : 15 < stall) :
    (openReadonlyFile.Read s f).1 = ([], some GoError.timeout) ∧
    GoError.timeout ≠ GoError.eof ∧ (some GoError.timeout : Option GoError) ≠ none := by
  have hinit : initContentReader s f = ((none, s), f) := by
    unfold initContentReader
    rw [hr]
  have hread : timeoutReader.readChunk { timeout := 15, stream := (stall, chunk) :: rest } =
      (Except.error GoError.timeout, { timeout := 15, stream := (stall, chunk) :: rest }) := by
    unfold timeoutReader.readChunk
    dsimp only
    rw [if_pos hstall]
  refine ⟨?_, by decide, by decide⟩
  unfold openReadonlyFile.Read
  rw [hinit]
  dsimp only
  rw [hr]
  dsimp only
  rw [hread]

/-- Witness for C9: a concrete stream stalling for 16 seconds. -/
theorem claim_C9_witness :
    (openReadonlyFile.Read stw
      { roFile with contentReader := some { timeout := 15, stream := [(16, [1])] } }).1 =
      ([], some GoError.timeout) ∧
    GoError.timeout ≠ GoError.eof ∧ (some GoError.timeout : Option GoError) ≠ none :=
  claim_C9_stall_timeout stw _ 16 [1] [] rfl (by decide)

/-! ### Claim C7 -/

/-- The first-non-trashed-file loop returns exactly the head of the
trashed-filtered list, in store-returned order. -/
theorem firstNotIgnored_eq_filter_head (files : List DriveFile) :
    firstNotIgnored files = (files.filter (fun g => !ignoreFile g)).head? := by
  induction files with
  | nil => rfl
  | cons f rest ih =>
    by_cases hf : ignoreFile f <;>
      simp [firstNotIgnored, List.filter_cons, hf, ih]

/-- Claim C7: for a non-root path whose parent resolves (to id `pid`),
`getFile0` issues exactly one children query — parent id `pid`, name
equal to the path's base name, restricted to folders exactly when
`onlyFolder` is set — propagates a query error, otherwise skips
trashed entries and returns the first remaining match in
store-returned order, and returns `os.ErrNotExist` when no non-trashed
match remains. -/
theorem claim_C7_resolution_step (fuel : Nat) (s s1 : FSState) (p : String)
    (of : Bool) (pid : String)
    (hq : normalizePath p ≠ "")
    (hparent : getFileID fuel s (goPathDir (normalizePath p)) true = ((pid, none), s1)) :
    (getFile0 (fuel + 1) s p of).2.trace =
      s1.trace ++ [StoreOp.list pid (goPathBase (normalizePath p)) of] ∧
    (∀ e, s1.store.filesList pid (goPathBase (normalizePath p)) of = Except.error e →
      (getFile0 (fuel + 1) s p of).1 = (none, some e)) ∧
    (∀ files, s1.store.filesList pid (goPathBase (normalizePath p)) of = Except.ok files →
      (getFile0 (fuel + 1) s p of).1 =
        (match (files.filter (fun g => !ignoreFile g)).head? with
         | some file =>
           (some { file := some file, path := normalizePath p, files := [] }, none)
         | none => (none, some GoError.errNotExist))) := by
  unfold getFile0
  dsimp only
  rw [if_neg hq, hparent]
  dsimp only
  unfold recOp
  dsimp only
  refine ⟨?_, ?_, ?_⟩
  · split
    · rfl
    · split <;> rfl
  · intro e he
    rw [he]
  · intro files hfiles
    rw [hfiles]
    dsimp only
    rw [firstNotIgnored_eq_filter_head]
    split <;> rfl

/-- Witness for C7: resolving "/docs/a.txt" under the three-object
store, with the parent "/docs" resolving to id "D". -/
theorem claim_C7_witness :
    (getFile0 8 stw "/docs/a.txt" false).2.trace =
      (getFileID 7 stw (goPathDir (normalizePath "/docs/a.txt")) true).2.trace ++
        [StoreOp.list "D" (goPathBase (normalizePath "/docs/a.txt")) false] ∧
    (∀ e, (getFileID 7 stw (goPathDir (normalizePath "/docs/a.txt")) true).2.store.filesList
        "D" (goPathBase (normalizePath "/docs/a.txt")) false = Except.error e →
      (getFile0 8 stw "/docs/a.txt" false).1 = (none, some e)) ∧
    (∀ files, (getFileID 7 stw (goPathDir (normalizePath "/docs/a.txt")) true).2.store.filesList
        "D" (goPathBase (normalizePath "/docs/a.txt")) false = Except.ok files →
      (getFile0 8 stw "/docs/a.txt" false).1 =
        (match (files.filter (fun g => !ignoreFile g)).head? with
         | some file =>
           (some { file := some file, path := normalizePath "/docs/a.txt", files := [] }, none)
         | none => (none, some GoError.errNotExist))) :=
  claim_C7_resolution_step 7 stw
    (getFileID 7 stw (goPathDir (normalizePath "/docs/a.txt")) true).2
    "/docs/a.txt" false "D" (by decide) (Prod.ext (by decide) rfl)

/-! ### Claim C8 -/

theorem string_append_left_cancel {a b c : String} (h : a ++ b = a ++ c) : b = c := by
  have hd : a.data ++ b.data = a.data ++ c.data := by
    have := congrArg String.data h
    simpa [String.data_append] using this
  exact String.ext (List.append_cancel_left hd)

/-- The filter-and-warm loop emits exactly the trashed-filtered
children's metadata, in store order. -/
theorem readdirWarm_infos (nm : String) (now : Nat) (cch : Cache)
    (files : List DriveFile) :
    (readdirWarm nm now cch files).1 =
      (files.filter (fun g => !ignoreFile g)).map newFileInfo := by
  induction files generalizing cch with
  | nil => rfl
  | cons f rest ih =>
    by_cases hf : ignoreFile f = true
    · unfold readdirWarm
      rw [if_pos hf, ih]
      simp [List.filter_cons, hf]
    · unfold readdirWarm
      rw [if_neg hf]
      dsimp only
      rw [ih]
      simp [List.filter_cons, hf]

/-- The warm loop leaves every key that is not one of the non-trashed
children's path keys untouched. -/
theorem readdirWarm_other (nm : String) (now : Nat) (cch : Cache)
    (files : List DriveFile) (k : String)
    (hk : ∀ c ∈ files, ignoreFile c = false → k ≠ cacheKeyFile ++ (nm ++ "/" ++ c.name)) :
    (readdirWarm nm now cch files).2 k = cch k := by
  induction files generalizing cch with
  | nil => rfl
  | cons f rest ih =>
    by_cases hf : ignoreFile f = true
    · unfold readdirWarm
      rw [if_pos hf]
      exact ih cch fun c hc h => hk c (List.mem_cons_of_mem f hc) h
    · unfold readdirWarm
      rw [if_neg hf]
      dsimp only
      rw [ih _ fun c hc h => hk c (List.mem_cons_of_mem f hc) h]
      unfold cacheSet
      rw [if_neg (hk f (List.mem_cons_self f rest) (by simpa using hf))]

/-- The warm loop stores, for every non-trashed child (with
non-trashed names pairwise distinct), a path-lookup entry under
`cacheKeyFile + nm + "/" + child` with the minute TTL. -/
theorem readdirWarm_child (nm : String) (now : Nat) (cch : Cache)
    (files : List DriveFile)
    (hnodup : ((files.filter (fun g => !ignoreFile g)).map (fun g => g.name)).Nodup) :
    ∀ c ∈ files, ignoreFile c = false →
      (readdirWarm nm now cch files).2 (cacheKeyFile ++ (nm ++ "/" ++ c.name)) =
        some (⟨some ⟨some c, nm ++ "/" ++ c.name, []⟩, none⟩, now + 60) := by
  induction files generalizing cch with
  | nil => intro c hc; cases hc
  | cons f rest ih =>
    intro c hc hcign
    by_cases hf : ignoreFile f = true
    · have hnodup' : ((rest.filter (fun g => !ignoreFile g)).map (fun g => g.name)).Nodup := by
        simpa [List.filter_cons, hf] using hnodup
      rcases List.mem_cons.mp hc with rfl | hc'
      · rw [hcign] at hf
        cases hf
      · unfold readdirWarm
        rw [if_pos hf]
        exact ih cch hnodup' c hc' hcign
    · have hfilter : (f :: rest).filter (fun g => !ignoreFile g) =
          f :: rest.filter (fun g => !ignoreFile g) := by
        simp [List.filter_cons, hf]
      have hnodup' : ((rest.filter (fun g => !ignoreFile g)).map (fun g => g.name)).Nodup := by
        rw [hfilter] at hnodup
        exact (List.nodup_cons.mp (by simpa using hnodup)).2
      have hfname : ∀ c' ∈ rest, ignoreFile c' = false → f.name ≠ c'.name := by
        intro c' hc' hc'ign heqn
        rw [hfilter] at hnodup
        have : f.name ∉ (rest.filter (fun g => !ignoreFile g)).map (fun g => g.name) :=
          (List.nodup_cons.mp (by simpa using hnodup)).1
        exact this (heqn ▸ List.mem_map_of_mem (fun g => g.name)
          (List.mem_filter.mpr ⟨hc', by simp [hc'ign]⟩))
      rcases List.mem_cons.mp hc with rfl | hc'
      · unfold readdirWarm
        rw [if_neg hf]
        dsimp only
        rw [readdirWarm_other _ _ _ _ _ ?_]
        · unfold cacheSet
          rw [if_pos rfl]
        · intro c' hc' hc'ign hkey
          have : nm ++ "/" ++ c.name = nm ++ "/" ++ c'.name :=
            string_append_left_cancel hkey
          have : c.name = c'.name := string_append_left_cancel this
          exact hfname c' hc' hc'ign this
      · unfold readdirWarm
        rw [if_neg hf]
        dsimp only
        exact ih _ hnodup' c hc' hcign

/-- Claim C8: on a cache miss, `Readdir` of a container queries that
container's children once, returns the trashed-filtered metadata list
in store order (an empty sequence — not an error — when no visible
child exists), caches the raw listing snapshot under
`cacheKeyDir + containerID` for 5 seconds, and stores a path-lookup
entry (`cacheKeyFile + containerPath + "/" + childName`, one minute
TTL) for every non-trashed child.  The two side conditions rule out
key collisions the source cannot distinguish because `cacheKeyDir`
and `cacheKeyFile` share the value "file:": non-trashed child names
must be pairwise distinct and no warmed child key may equal the
container-id key. -/
theorem claim_C8_readdir (s : FSState) (f : openReadonlyFile) (count : Int)
    (rFiles : List DriveFile)
    (hmiss : cacheGet s.cache s.now (cacheKeyDir ++ f.file.id) = none)
    (hfiles : s.store.filesListChildren f.file.id = Except.ok rFiles)
    (hnodup : ((rFiles.filter (fun g => !ignoreFile g)).map (fun g => g.name)).Nodup)
    (hnocol : ∀ c ∈ rFiles, ignoreFile c = false →
      f.name ++ "/" ++ c.name ≠ f.file.id) :
    (openReadonlyFile.Readdir s f count).1 =
      Except.ok ((rFiles.filter (fun g => !ignoreFile g)).map newFileInfo) ∧
    (openReadonlyFile.Readdir s f count).2.trace =
      s.trace ++ [StoreOp.listChildren f.file.id] ∧
    (openReadonlyFile.Readdir s f count).2.cache (cacheKeyDir ++ f.file.id) =
      some (⟨some ⟨some f.file, f.file.id, rFiles⟩, none⟩, s.now + 5) ∧
    (∀ c ∈ rFiles, ignoreFile c = false →
      (openReadonlyFile.Readdir s f count).2.cache
          (cacheKeyFile ++ (f.name ++ "/" ++ c.name)) =
        some (⟨some ⟨some c, f.name ++ "/" ++ c.name, []⟩, none⟩, s.now + 60)) ∧
    (rFiles.filter (fun g => !ignoreFile g) = [] →
      (openReadonlyFile.Readdir s f count).1 = Except.ok []) := by
  have hkeyne : ∀ c ∈ rFiles, ignoreFile c = false →
      cacheKeyDir ++ f.file.id ≠ cacheKeyFile ++ (f.name ++ "/" ++ c.name) := by
    intro c hc hcign hkey
    exact hnocol c hc hcign (string_append_left_cancel hkey.symm)
  unfold openReadonlyFile.Readdir
  rw [hmiss]
  dsimp only
  unfold recOp
  dsimp only
  rw [hfiles]
  dsimp only
  refine ⟨?_, rfl, ?_, ?_, ?_⟩
  · rw [readdirWarm_infos]
  · rw [readdirWarm_other _ _ _ _ _ hkeyne]
    unfold cacheSet
    rw [if_pos rfl]
  · intro c hc hcign
    exact readdirWarm_child f.name s.now _ rFiles hnodup c hc hcign
  · intro hempty
    rw [readdirWarm_infos, hempty]
    rfl

/-- Witness for C8: listing the concrete container `D` (one visible
child "a.txt"). -/
theorem claim_C8_witness :
    (openReadonlyFile.Readdir stw roDocs (-1)).1 =
      Except.ok (([aF].filter (fun g => !ignoreFile g)).map newFileInfo) ∧
    (openReadonlyFile.Readdir stw roDocs (-1)).2.trace =
      stw.trace ++ [StoreOp.listChildren roDocs.file.id] ∧
    (openReadonlyFile.Readdir stw roDocs (-1)).2.cache (cacheKeyDir ++ roDocs.file.id) =
      some (⟨some ⟨some roDocs.file, roDocs.file.id, [aF]⟩, none⟩, stw.now + 5) ∧
    (∀ c ∈ [aF], ignoreFile c = false →
      (openReadonlyFile.Readdir stw roDocs (-1)).2.cache
          (cacheKeyFile ++ (roDocs.name ++ "/" ++ c.name)) =
        some (⟨some ⟨some c, roDocs.name ++ "/" ++ c.name, []⟩, none⟩, stw.now + 60)) ∧
    ([aF].filter (fun g => !ignoreFile g) = [] →
      (openReadonlyFile.Readdir stw roDocs (-1)).1 = Except.ok []) :=
  claim_C8_readdir stw roDocs (-1) [aF] (by decide) rfl (by decide) (by decide)

theorem dropWhile_head_not {α} (q : α → Bool) (l : List α) {a : α}
    (h : (l.dropWhile q).head? = some a) : q a = false := by
  have := List.head?_dropWhile_not q l
  rw [h] at this
  simpa using this

theorem norm_len_le (p : String) :
    (normalizePath p).data.length ≤ p.data.length := by
  show (trimTrailingSlashes p.data).length ≤ p.data.length
  unfold trimTrailingSlashes
  have hs : p.data.reverse.dropWhile (fun c => decide (c = '/')) <:+ p.data.reverse :=
    List.dropWhile_suffix _
  have := hs.length_le
  simpa using this

theorem norm_reverse_no_slash (p : String) (a : Char)
    (h : (normalizePath p).data.reverse.head? = some a) : a ≠ '/' := by
  have hrev : (normalizePath p).data.reverse =
      p.data.reverse.dropWhile (fun c => decide (c = '/')) := by
    show (trimTrailingSlashes p.data).reverse = _
    unfold trimTrailingSlashes
    simp
  rw [hrev] at h
  have := dropWhile_head_not _ _ h
  simpa using this

theorem norm_eq_nil_or_rooted {p : String} (hp : rootedStr p) :
    normalizePath p = "" ∨ rootedStr (normalizePath p) := by
  cases hq : (normalizePath p).data with
  | nil =>
    left
    have : normalizePath p = String.mk [] := String.ext hq
    simpa using this
  | cons b bs =>
    right
    show (normalizePath p).data.head? = some '/'
    rw [hq]
    -- the trimmed list is a prefix of p.data, so a nonempty trim shares p's head
    have hsuffix : p.data.reverse.dropWhile (fun c => decide (c = '/')) <:+ p.data.reverse :=
      List.dropWhile_suffix _
    obtain ⟨u, hu⟩ := hsuffix
    have hdata : (normalizePath p).data =
        (p.data.reverse.dropWhile (fun c => decide (c = '/'))).reverse := rfl
    have hpref : (normalizePath p).data ++ u.reverse = p.data := by
      rw [hdata, ← List.reverse_append, hu, List.reverse_reverse]
    have hne : (normalizePath p).data ≠ [] := by
      rw [hq]
      simp
    unfold rootedStr at hp
    rw [← hpref, hq] at hp
    simpa using hp

theorem segsLen_cons (x : List Char) (xs : List (List Char)) :
    segsLen (x :: xs) = x.length + 1 + segsLen xs := by
  simp [segsLen]
  omega

theorem segsLen_reverse (l : List (List Char)) : segsLen l.reverse = segsLen l := by
  simp [segsLen, List.map_reverse, List.sum_reverse]

theorem joinSlash_length : ∀ segs : List (List Char), segs ≠ [] →
    (joinSlash segs).length + 1 = segsLen segs
  | [s], _ => by simp [joinSlash, segsLen]
  | s :: s2 :: rest, _ => by
    have ih := joinSlash_length (s2 :: rest) (by simp)
    rw [segsLen_cons]
    show (s ++ '/' :: joinSlash (s2 :: rest)).length + 1 = _
    simp only [List.length_append, List.length_cons]
    omega

theorem splitSlash_ne_nil : ∀ m : List Char, splitSlash m ≠ []
  | [] => by simp [splitSlash]
  | c :: rest => by
    rw [splitSlash]
    split
    · simp
    · split <;> simp

theorem splitSlash_segsLen : ∀ m : List Char, segsLen (splitSlash m) = m.length + 1
  | [] => by simp [splitSlash, segsLen]
  | c :: rest => by
    have ih := splitSlash_segsLen rest
    rw [splitSlash]
    split
    · rw [segsLen_cons]
      simp only [List.length_nil, List.length_cons]
      omega
    · split
      · rename_i s ss hss
        rw [hss, segsLen_cons] at ih
        rw [segsLen_cons]
        simp only [List.length_cons]
        omega
      · rename_i hss
        exact absurd hss (splitSlash_ne_nil rest)

theorem segsLen_nil : segsLen [] = 0 := by
  simp [segsLen]

theorem cleanSegsAux_segsLen (rooted : Bool) :
    ∀ (segs out : List (List Char)),
      segsLen (cleanSegsAux rooted out segs) ≤ segsLen out + segsLen segs := by
  intro segs
  induction segs with
  | nil =>
    intro out
    simp [cleanSegsAux, segsLen]
  | cons sg rest ih =>
    intro out
    rw [cleanSegsAux.eq_def]
    dsimp only
    split
    · have H := ih out
      simp only [segsLen_cons]
      omega
    · split
      · rename_i hsg
        subst hsg
        split
        · split
          · have H := ih []
            simp only [segsLen_cons, segsLen_nil, List.length_cons, List.length_nil] at H ⊢
            omega
          · have H := ih [['.', '.']]
            simp only [segsLen_cons, segsLen_nil, List.length_cons, List.length_nil] at H ⊢
            omega
        · rename_i o os
          split
          · rename_i ho
            subst ho
            have H := ih (['.', '.'] :: ['.', '.'] :: os)
            simp only [segsLen_cons, List.length_cons, List.length_nil] at H ⊢
            omega
          · have H := ih os
            simp only [segsLen_cons, List.length_cons, List.length_nil] at H ⊢
            omega
      · have H := ih (sg :: out)
        simp only [segsLen_cons] at H ⊢
        omega

theorem goCleanList_rooted (t : List Char) :
    (goCleanList ('/' :: t)).length ≤ ('/' :: t).length ∧
    (goCleanList ('/' :: t)).head? = some '/' := by
  unfold goCleanList
  rw [if_neg (by simp)]
  dsimp only
  have hb : decide ((('/' :: t : List Char)).head? = some '/') = true := rfl
  rw [hb, if_pos rfl]
  have hsplit : splitSlash ('/' :: t) = [] :: splitSlash t := by
    conv_lhs => rw [splitSlash]
    simp
  rw [hsplit]
  have hskip : cleanSegsAux true [] ([] :: splitSlash t) =
      cleanSegsAux true [] (splitSlash t) := by
    conv_lhs => rw [cleanSegsAux.eq_def]
    simp
  rw [hskip]
  refine ⟨?_, rfl⟩
  by_cases hno : (cleanSegsAux true [] (splitSlash t)).reverse = []
  · rw [hno]
    simp [joinSlash]
  · have hjl := joinSlash_length _ hno
    have hsl : segsLen (cleanSegsAux true [] (splitSlash t)).reverse ≤ t.length + 1 := by
      rw [segsLen_reverse]
      have := cleanSegsAux_segsLen true (splitSlash t) []
      rw [splitSlash_segsLen] at this
      simpa [segsLen] using this
    simp only [List.length_cons]
    omega

theorem dropLastSegment_length {l : List Char} {c : Char}
    (h : l.reverse.head? = some c) (hc : c ≠ '/') :
    (dropLastSegment l).length + 1 ≤ l.length := by
  unfold dropLastSegment
  rw [List.length_reverse]
  cases hrev : l.reverse with
  | nil =>
    rw [hrev] at h
    cases h
  | cons a as =>
    rw [hrev] at h
    have ha : a = c := by injection h
    have hq : (fun x => decide (x ≠ '/')) a = true := by simp [ha, hc]
    rw [List.dropWhile_cons, if_pos hq]
    have hlen : (as.dropWhile (fun x => decide (x ≠ '/'))).length ≤ as.length :=
      (List.dropWhile_suffix _).length_le
    have hl : l.length = as.length + 1 := by
      have := congrArg List.length hrev
      simpa using this
    omega

theorem dropLastSegment_rooted {l : List Char} (h : l.head? = some '/') :
    (dropLastSegment l).head? = some '/' := by
  have hmem : '/' ∈ l.reverse := by
    cases l with
    | nil => cases h
    | cons a as =>
      have : a = '/' := by injection h
      rw [this]
      exact List.mem_reverse.mpr (List.mem_cons_self _ _)
  have hne : l.reverse.dropWhile (fun x => decide (x ≠ '/')) ≠ [] := by
    intro hnil
    have hall := List.dropWhile_eq_nil_iff.mp hnil '/' hmem
    simp at hall
  obtain ⟨u, hu⟩ : l.reverse.dropWhile (fun x => decide (x ≠ '/')) <:+ l.reverse :=
    List.dropWhile_suffix _
  unfold dropLastSegment
  rw [List.head?_reverse]
  have h1 : (l.reverse.dropWhile (fun x => decide (x ≠ '/'))).getLast? =
      l.reverse.getLast? := by
    conv_rhs => rw [← hu]
    exact (List.getLast?_append_of_ne_nil u hne).symm
  rw [h1, List.getLast?_reverse]
  exact h

/-- For a rooted path with no trailing slash, `path.Dir` is strictly
shorter and still rooted. -/
theorem goPathDir_shrink {x : String} (hroot : rootedStr x)
    (hnotrail : ∀ a, x.data.reverse.head? = some a → a ≠ '/') :
    (goPathDir x).data.length < x.data.length ∧ rootedStr (goPathDir x) := by
  have hne : x.data ≠ [] := by
    intro hnil
    unfold rootedStr at hroot
    rw [hnil] at hroot
    cases hroot
  obtain ⟨c, hc⟩ : ∃ c, x.data.reverse.head? = some c := by
    cases hrev : x.data.reverse with
    | nil =>
      exfalso
      apply hne
      have := congrArg List.reverse hrev
      simpa using this
    | cons a as => exact ⟨a, rfl⟩
  have hcslash := hnotrail c hc
  have hlen := dropLastSegment_length hc hcslash
  have hdroot : (dropLastSegment x.data).head? = some '/' := dropLastSegment_rooted hroot
  cases hd : dropLastSegment x.data with
  | nil =>
    rw [hd] at hdroot
    cases hdroot
  | cons b bs =>
    rw [hd] at hdroot
    have hb : b = '/' := by injection hdroot
    subst hb
    have hclean := goCleanList_rooted bs
    have hgd : (goPathDir x).data = goCleanList ('/' :: bs) := by
      show (goClean (String.mk (dropLastSegment x.data))).data = _
      rw [hd]
      rfl
    constructor
    · rw [hgd]
      have := congrArg List.length hd
      simp only [List.length_cons] at this
      have h2 := hclean.1
      simp only [List.length_cons] at h2
      omega
    · unfold rootedStr
      rw [hgd]
      exact hclean.2

/-- Cache keys written while resolving a rooted path: `getFile` may
write its own key; every other key written (all of them by the
recursive parent lookups) belongs to a strictly shorter path than the
normalized input.  Hence a failed lookup never leaves an entry under
its own key. -/
theorem resolveKeys (fuel : Nat) :
    (∀ s p of k, rootedStr p →
      (getFile fuel s p of).2.cache k ≠ s.cache k →
      k = cacheKeyFile ++ p ∨
      ∃ q, k = cacheKeyFile ++ q ∧ q.data.length < (normalizePath p).data.length) ∧
    (∀ s p of k, rootedStr p →
      (getFile0 fuel s p of).2.cache k ≠ s.cache k →
      ∃ q, k = cacheKeyFile ++ q ∧ q.data.length < (normalizePath p).data.length) ∧
    (∀ s p of k, rootedStr p →
      (getFileID fuel s p of).2.cache k ≠ s.cache k →
      k = cacheKeyFile ++ p ∨
      ∃ q, k = cacheKeyFile ++ q ∧ q.data.length < (normalizePath p).data.length) := by
  induction fuel with
  | zero =>
    refine ⟨?_, ?_, ?_⟩
    · intro s p of k _ hne
      exfalso
      apply hne
      unfold getFile
      split <;> rfl
    · intro s p of k _ hne
      exfalso
      apply hne
      unfold getFile0
      split
      · show (getRootFile s).2.cache k = s.cache k
        unfold getRootFile
        dsimp only
        split <;> rfl
      · rfl
    · intro s p of k _ hne
      exact absurd rfl hne
  | succ n ih =>
    refine ⟨?_, ?_, ?_⟩
    · intro s p of k hroot hne
      unfold getFile at hne
      dsimp only at hne
      revert hne
      split
      · intro hne
        exact absurd rfl hne
      · split
        · intro hne
          by_cases hk : k = cacheKeyFile ++ p
          · exact Or.inl hk
          · refine Or.inr (ih.2.1 s p of k hroot ?_)
            intro hEq
            apply hne
            show cacheSet (getFile0 n s p of).2.cache (getFile0 n s p of).2.now 60
              (cacheKeyFile ++ p) _ k = s.cache k
            unfold cacheSet
            rw [if_neg hk]
            exact hEq
        · intro hne
          exact Or.inr (ih.2.1 s p of k hroot hne)
    · intro s p of k hroot hne
      unfold getFile0 at hne
      dsimp only at hne
      revert hne
      split
      · intro hne
        exfalso
        apply hne
        show (getRootFile s).2.cache k = s.cache k
        unfold getRootFile
        dsimp only
        split <;> rfl
      · rename_i hq
        have hqroot : rootedStr (normalizePath p) :=
          (norm_eq_nil_or_rooted hroot).resolve_left hq
        have hnotrail : ∀ a, (normalizePath p).data.reverse.head? = some a → a ≠ '/' :=
          fun a ha => norm_reverse_no_slash p a ha
        obtain ⟨hdirlen, hdirroot⟩ := goPathDir_shrink hqroot hnotrail
        have step : (getFileID n s (goPathDir (normalizePath p)) true).2.cache k ≠ s.cache k →
            ∃ q, k = cacheKeyFile ++ q ∧
              q.data.length < (normalizePath p).data.length := by
          intro hne
          rcases ih.2.2 s (goPathDir (normalizePath p)) true k hdirroot hne with
            hkey | ⟨q, hkq, hlq⟩
          · exact ⟨goPathDir (normalizePath p), hkey, hdirlen⟩
          · exact ⟨q, hkq, lt_trans (lt_of_lt_of_le hlq (norm_len_le _)) hdirlen⟩
        split
        · intro hne
          exact step hne
        · split
          · intro hne
            exact step hne
          · split
            · intro hne
              exact step hne
            · intro hne
              exact step hne
    · intro s p of k hroot hne
      unfold getFileID at hne
      dsimp only at hne
      revert hne
      split
      · intro hne
        exact ih.1 s p of k hroot hne
      · split
        · split
          · intro hne
            exact ih.1 s p of k hroot hne
          · intro hne
            exact ih.1 s p of k hroot hne
        · intro hne
          exact ih.1 s p of k hroot hne

/-- A failed `getFile` on a rooted path leaves the raw cache entry
under its own key exactly as it was: the success-only `Set` never ran,
and every key the recursive parent lookups wrote belongs to a strictly
shorter path. -/
theorem getFile_fail_key_untouched {fuel : Nat} {s : FSState} {p : String} {of : Bool}
    {fp : Option fileAndPath} {e : GoError} {s' : FSState}
    (hroot : rootedStr p)
    (h : getFile fuel s p of = ((fp, some e), s')) :
    s'.cache (cacheKeyFile ++ p) = s.cache (cacheKeyFile ++ p) := by
  cases fuel with
  | zero =>
    unfold getFile at h
    revert h
    split
    · intro h
      injection h with _ h2
      rw [← h2]
    · intro h
      injection h with _ h2
      rw [← h2]
  | succ n =>
    unfold getFile at h
    dsimp only at h
    revert h
    split
    · intro h
      injection h with _ h2
      rw [← h2]
    · split
      · rename_i heq
        intro h
        injection h with h1 _
        have h12 := congrArg Prod.snd h1
        rw [heq] at h12
        cases h12
      · rename_i e' heq
        intro h
        injection h with _ h2
        rw [← h2]
        by_contra hne
        obtain ⟨q, hkq, hlq⟩ := (resolveKeys n).2.1 s p of (cacheKeyFile ++ p) hroot hne
        have hpq : p = q := string_append_left_cancel hkq
        rw [← hpq] at hlq
        exact absurd hlq (not_lt.mpr (norm_len_le p))

/-- A cache-missing `getFile`, a `getFile0`, and a failing `getFileID`
each reach the remote store (the trace strictly grows) unless the
artificial fuel bound was hit. -/
theorem resolveTraceGrowth (fuel : Nat) :
    (∀ s p of, CacheWF s.cache →
      cacheGet s.cache s.now (cacheKeyFile ++ p) = none →
      (getFile fuel s p of).1.2 ≠ some GoError.fuelOut →
      s.trace.length < (getFile fuel s p of).2.trace.length) ∧
    (∀ s p of, CacheWF s.cache →
      (getFile0 fuel s p of).1.2 ≠ some GoError.fuelOut →
      s.trace.length < (getFile0 fuel s p of).2.trace.length) ∧
    (∀ s p of e, CacheWF s.cache →
      (getFileID fuel s p of).1.2 = some e → e ≠ GoError.fuelOut →
      s.trace.length < (getFileID fuel s p of).2.trace.length) := by
  have rootGrows : ∀ s : FSState, s.trace.length < (getRootFile s).2.trace.length := by
    intro s
    unfold getRootFile recOp
    dsimp only
    split <;> simp
  induction fuel with
  | zero =>
    refine ⟨?_, ?_, ?_⟩
    · intro s p of _ hmiss hfuel
      exfalso
      apply hfuel
      unfold getFile
      rw [hmiss]
    · intro s p of _ hfuel
      unfold getFile0 at hfuel ⊢
      revert hfuel
      split
      · intro _
        exact rootGrows s
      · intro hfuel
        exact absurd rfl hfuel
    · intro s p of e _ heq hne
      unfold getFileID at heq
      dsimp only at heq
      injection heq with h
      exact absurd h.symm hne
  | succ n ih =>
    refine ⟨?_, ?_, ?_⟩
    · intro s p of hwf hmiss hfuel
      unfold getFile at hfuel ⊢
      dsimp only at hfuel ⊢
      rw [hmiss] at hfuel ⊢
      dsimp only at hfuel ⊢
      revert hfuel
      split
      · intro hfuel
        exact ih.2.1 s p of hwf hfuel
      · intro hfuel
        exact ih.2.1 s p of hwf hfuel
    · intro s p of hwf hfuel
      unfold getFile0 at hfuel ⊢
      dsimp only at hfuel ⊢
      revert hfuel
      split
      · intro _
        exact rootGrows s
      · intro hfuel
        revert hfuel
        split
        · rename_i e' heq
          intro hfuel
          exact ih.2.2 s _ true e' hwf heq (fun hh => hfuel (by rw [hh]))
        · rename_i heq
          intro _
          obtain ⟨-, -, ⟨ext, htr, -⟩, -, -⟩ :=
            (resolveEvolve n).2.2 s (goPathDir (normalizePath p)) true
          have hlen : s.trace.length ≤
              (getFileID n s (goPathDir (normalizePath p)) true).2.trace.length := by
            rw [htr]
            simp
          have htail : ∀ (t : FSState) (op : StoreOp),
              (recOp t op).trace.length = t.trace.length + 1 := by
            intro t op
            unfold recOp
            simp
          split
          · rw [htail]
            omega
          · split
            · rw [htail]
              omega
            · rw [htail]
              omega
    · intro s p of e hwf heq hne
      unfold getFileID at heq ⊢
      dsimp only at heq ⊢
      revert heq
      split
      · rename_i e' heq'
        intro heq
        have he' : e' = e := by
          dsimp only at heq
          injection heq
        cases hget : cacheGet s.cache s.now (cacheKeyFile ++ p) with
        | some v =>
          exfalso
          obtain ⟨exp, hc⟩ := cacheGet_some hget
          obtain ⟨herr, -⟩ := hwf _ _ _ hc
          have hnone : (getFile n s p of).1.2 = none := by
            cases n with
            | zero =>
              unfold getFile
              rw [hget]
              exact herr
            | succ m =>
              unfold getFile
              dsimp only
              rw [hget]
              exact herr
          rw [hnone] at heq'
          cases heq'
        | none =>
          refine ih.1 s p of hwf hget ?_
          rw [heq']
          intro hc
          injection hc with hc'
          exact hne (he' ▸ hc')
      · rename_i hnone
        split
        · rename_i fp1 hfp
          split
          · rename_i df hdf
            intro heq
            exact absurd heq (by simp)
          · rename_i hdf
            intro _
            exfalso
            obtain ⟨a, df', ha, hdf'⟩ := getFile_success_good hwf
              (show getFile n s p of =
                  (((getFile n s p of).1.1, none), (getFile n s p of).2) by
                rw [← hnone])
            rw [hfp] at ha
            injection ha with ha'
            rw [← ha'] at hdf'
            rw [hdf] at hdf'
            cases hdf'
        · rename_i hfp
          intro _
          exfalso
          obtain ⟨a, df', ha, -⟩ := getFile_success_good hwf
            (show getFile n s p of =
                (((getFile n s p of).1.1, none), (getFile n s p of).2) by
              rw [← hnone])
          rw [hfp] at ha
          cases ha

theorem getFile_hit (fuel : Nat) (s : FSState) (p : String) (of : Bool)
    (v : fileLookupResult)
    (hv : cacheGet s.cache s.now (cacheKeyFile ++ p) = some v) :
    getFile fuel s p of = ((v.fp, v.err), s) := by
  cases fuel with
  | zero =>
    unfold getFile
    rw [hv]
  | succ n =>
    unfold getFile
    dsimp only
    rw [hv]

theorem cacheGet_of_entry {c : Cache} {k : String} {v : fileLookupResult}
    {exp now : Nat} (hc : c k = some (v, exp)) (ht : now ≤ exp) :
    cacheGet c now k = some v := by
  unfold cacheGet
  rw [hc]
  dsimp only
  rw [if_neg (by omega)]

/-! ### Claim C5 -/

/-- Claim C5: on a cache miss for a rooted lookup key, a failed
resolution stores nothing under that key — the entry is exactly as
before, so the next lookup for the key misses again and reaches the
remote store (the trace strictly grows, barring only the artificial
fuel bound) — while a successful resolution is stored under the key
with the `time.Minute` TTL, and any second lookup within that TTL is
answered from the cache with the identical result and a completely
untouched state (no resolver invocation, no remote query). -/
theorem claim_C5_cache_success_only (fuel : Nat) (s : FSState) (p : String) (of : Bool)
    (fp : Option fileAndPath) (err : Option GoError) (s' : FSState)
    (hwf : CacheWF s.cache) (hroot : rootedStr p)
    (hmiss : cacheGet s.cache s.now (cacheKeyFile ++ p) = none)
    (h : getFile fuel s p of = ((fp, err), s')) :
    (∀ e, err = some e →
      cacheGet s'.cache s'.now (cacheKeyFile ++ p) = none ∧
      (∀ fuel2, (getFile fuel2 s' p of).1.2 ≠ some GoError.fuelOut →
        s'.trace.length < (getFile fuel2 s' p of).2.trace.length)) ∧
    (err = none →
      s'.cache (cacheKeyFile ++ p) = some (⟨fp, none⟩, s.now + 60) ∧
      (∀ t fuel2, t ≤ s.now + 60 →
        getFile fuel2 { s' with now := t } p of =
          ((fp, none), { s' with now := t }))) := by
  have hev := (resolveEvolve fuel).1 s p of
  rw [h] at hev
  obtain ⟨hnow, -, -, -, hwfpres⟩ := hev
  constructor
  · intro e herr
    subst herr
    have huntouched := getFile_fail_key_untouched hroot h
    have hmiss2 : cacheGet s'.cache s'.now (cacheKeyFile ++ p) = none := by
      unfold cacheGet at hmiss ⊢
      rw [huntouched, hnow]
      exact hmiss
    refine ⟨hmiss2, ?_⟩
    intro fuel2 hf2
    exact (resolveTraceGrowth fuel2).1 s' p of (hwfpres hwf) hmiss2 hf2
  · intro herr
    subst herr
    cases fuel with
    | zero =>
      unfold getFile at h
      rw [hmiss] at h
      simp at h
    | succ n =>
      unfold getFile at h
      dsimp only at h
      rw [hmiss] at h
      dsimp only at h
      revert h
      split
      · rename_i heq
        intro h
        simp only [Prod.mk.injEq] at h
        obtain ⟨⟨h1, -⟩, h2⟩ := h
        have hnow0 : (getFile0 n s p of).2.now = s.now := ((resolveEvolve n).2.1 s p of).1
        have hkey : s'.cache (cacheKeyFile ++ p) = some (⟨fp, none⟩, s.now + 60) := by
          rw [← h2]
          show cacheSet (getFile0 n s p of).2.cache (getFile0 n s p of).2.now 60
            (cacheKeyFile ++ p) ⟨(getFile0 n s p of).1.1, (getFile0 n s p of).1.2⟩
            (cacheKeyFile ++ p) = some (⟨fp, none⟩, s.now + 60)
          unfold cacheSet
          rw [if_pos rfl, hnow0, h1, heq]
        refine ⟨hkey, ?_⟩
        intro t fuel2 ht
        have hget : cacheGet ({ s' with now := t } : FSState).cache
            ({ s' with now := t } : FSState).now (cacheKeyFile ++ p) =
            some ⟨fp, none⟩ :=
          cacheGet_of_entry hkey ht
        exact getFile_hit fuel2 { s' with now := t } p of ⟨fp, none⟩ hget
      · rename_i e2 heq
        intro h
        simp only [Prod.mk.injEq] at h
        rw [heq] at h
        exact absurd h.1.2 (by simp)

/-- Witness for C5 (success branch at a concrete input): a first
lookup of "/" misses, resolves, and is cached for 60 seconds; any
lookup within the TTL is served from the cache with the state
untouched. -/
theorem claim_C5_witness :
    (getFile 1 stw "/" false).2.cache (cacheKeyFile ++ "/") =
      some (⟨some { file := some rootF, path := "/", files := [] }, none⟩, stw.now + 60) ∧
    (∀ t fuel2, t ≤ stw.now + 60 →
      getFile fuel2 { (getFile 1 stw "/" false).2 with now := t } "/" false =
        ((some { file := some rootF, path := "/", files := [] }, none),
          { (getFile 1 stw "/" false).2 with now := t })) :=
  (claim_C5_cache_success_only 1 stw "/" false
    (some { file := some rootF, path := "/", files := [] }) none
    (getFile 1 stw "/" false).2
    (fun _ _ _ hx => nomatch hx) rfl (by decide) (Prod.ext (by decide) rfl)).2 rfl

end Gdrive
